import Mathlib

/-!
# Malla curricular: the prerequisite controller of `script.js`

A shallow embedding of the page script: the set of approved courses
(`ramosAprobados`), its persistence in `localStorage`, the recomputation of the
visual state (`actualizarEstadoVisual`) and the click handler
(`manejarClickEnRamo`).

Modelling conventions.
* A JavaScript string is a list of characters (`JSString`). Ill-formed UTF-16
  (a lone surrogate) has no counterpart here; none of the operations used by the
  script (`split(',')`, `trim`, `Set` membership) looks inside a surrogate pair.
* A JavaScript `Set` of strings is the list of its members in insertion order.
* The DOM is the list of the elements of the document in tree order; the course
  nodes are the elements that carry the class `ramo`.
* `localStorage` is reduced to the value stored under the one key the script
  uses; writing to it always succeeds.
-/

namespace Malla

/-- A JavaScript string. -/
abbrev JSString := List Char

/-! ## String operations used by the script -/

/-- The characters removed by `String.prototype.trim`: ECMAScript `WhiteSpace`
(TAB, VT, FF, ZWNBSP and the Unicode space separators) and `LineTerminator`
(LF, CR, LS, PS). -/
def esEspacioJS (c : Char) : Bool :=
  let n := c.toNat
  n = 0x09 || n = 0x0A || n = 0x0B || n = 0x0C || n = 0x0D || n = 0x20 ||
  n = 0xA0 || n = 0x1680 || (0x2000 ≤ n && n ≤ 0x200A) || n = 0x2028 ||
  n = 0x2029 || n = 0x202F || n = 0x205F || n = 0x3000 || n = 0xFEFF

/-- The method `String.prototype.trim`. -/
def trim (s : JSString) : JSString :=
  ((s.dropWhile esEspacioJS).reverse.dropWhile esEspacioJS).reverse

/-- The call `s.split(',')`: the pieces of `s` between commas; a string without
a comma (the empty one included) is its own single piece. -/
def split : JSString → List JSString
  | [] => [[]]
  | c :: cs =>
    if c = ',' then [] :: split cs
    else match split cs with
      | [] => [[c]]
      | p :: ps => (c :: p) :: ps

/-- The call `partes.join(sep)`. -/
def join (sep : JSString) : List JSString → JSString
  | [] => []
  | [p] => p
  | p :: q :: ps => p ++ sep ++ join sep (q :: ps)

/-! ## The set of approved ids -/

/-- The method `Set.prototype.has`. -/
def setHas (aprobados : List JSString) (x : JSString) : Bool :=
  decide (x ∈ aprobados)

/-- The method `Set.prototype.delete`. -/
def setDelete (aprobados : List JSString) (x : JSString) : List JSString :=
  aprobados.filter (fun y => decide (y ≠ x))

/-- The method `Set.prototype.add`: a new member goes last. -/
def setAdd (aprobados : List JSString) (x : JSString) : List JSString :=
  if x ∈ aprobados then aprobados else aprobados ++ [x]

/-- The constructor `new Set(arreglo)`: the members of the array in order of
first occurrence. -/
def nuevoSet (arreglo : List JSString) : List JSString :=
  arreglo.foldl setAdd []

/-! ## JSON, as far as an array of strings goes -/

/-- A hexadecimal digit, lower case, as `JSON.stringify` writes it. -/
def digitoHex (n : Nat) : Char :=
  if n < 10 then Char.ofNat (48 + n) else Char.ofNat (87 + n)

/-- The escape of one character in ECMAScript `QuoteJSONString`. -/
def quoteChar (c : Char) : JSString :=
  let n := c.toNat
  if n = 0x08 then ['\\', 'b']
  else if n = 0x09 then ['\\', 't']
  else if n = 0x0A then ['\\', 'n']
  else if n = 0x0C then ['\\', 'f']
  else if n = 0x0D then ['\\', 'r']
  else if n = 0x22 then ['\\', '"']
  else if n = 0x5C then ['\\', '\\']
  else if n < 0x20 then ['\\', 'u', '0', '0', digitoHex (n / 16), digitoHex (n % 16)]
  else [c]

/-- ECMAScript `QuoteJSONString`: `JSON.stringify` of a string. -/
def quoteJSONString (s : JSString) : JSString :=
  '"' :: (s.flatMap quoteChar ++ ['"'])

/-- The call `JSON.stringify(arreglo)` on an array of strings. -/
def jsonStringify (arreglo : List JSString) : JSString :=
  '[' :: (join [','] (arreglo.map quoteJSONString) ++ [']'])

/-- JSON white space. -/
def esBlancoJSON (c : Char) : Bool :=
  let n := c.toNat
  n = 0x20 || n = 0x09 || n = 0x0A || n = 0x0D

/-- Skips JSON white space. -/
def saltarBlancos (s : JSString) : JSString :=
  s.dropWhile esBlancoJSON

/-- The value of a hexadecimal digit of either case. -/
def valorHex (c : Char) : Option Nat :=
  let n := c.toNat
  if 48 ≤ n ∧ n ≤ 57 then some (n - 48)
  else if 97 ≤ n ∧ n ≤ 102 then some (n - 87)
  else if 65 ≤ n ∧ n ≤ 70 then some (n - 55)
  else none

/-- The character of a one-letter JSON escape. -/
def escapeSimple (c : Char) : Option Char :=
  let n := c.toNat
  if n = 0x22 then some c
  else if n = 0x5C then some c
  else if n = 0x2F then some c
  else if n = 0x62 then some (Char.ofNat 0x08)
  else if n = 0x66 then some (Char.ofNat 0x0C)
  else if n = 0x6E then some (Char.ofNat 0x0A)
  else if n = 0x72 then some (Char.ofNat 0x0D)
  else if n = 0x74 then some (Char.ofNat 0x09)
  else none

/-- The character of the escape `\uXXXX`; an escape in the surrogate range
(half of a pair) is outside this model of strings and gives `none`. -/
def escapeUnicode (a b c d : Char) : Option Char :=
  match valorHex a, valorHex b, valorHex c, valorHex d with
  | some x, some y, some z, some w =>
    let n := ((x * 16 + y) * 16 + z) * 16 + w
    if 0xD800 ≤ n ∧ n ≤ 0xDFFF then none else some (Char.ofNat n)
  | _, _, _, _ => none

/-- Reads a JSON string from just after its opening quote: the string it
denotes and the text after its closing quote. -/
def parseCadena : JSString → Option (JSString × JSString)
  | [] => none
  | c :: resto =>
    if c.toNat = 0x22 then some ([], resto)
    else if c.toNat = 0x5C then
      match resto with
      | [] => none
      | e :: resto1 =>
        if e.toNat = 0x75 then
          match resto1 with
          | h1 :: h2 :: h3 :: h4 :: resto2 =>
            match escapeUnicode h1 h2 h3 h4, parseCadena resto2 with
            | some x, some (s, fin) => some (x :: s, fin)
            | _, _ => none
          | _ => none
        else
          match escapeSimple e, parseCadena resto1 with
          | some x, some (s, fin) => some (x :: s, fin)
          | _, _ => none
    else if c.toNat < 0x20 then none
    else
      match parseCadena resto with
      | some (s, fin) => some (c :: s, fin)
      | none => none

/-- Reads the elements of a JSON array of strings from just after `[` or `,`,
up to and including the closing `]`. The first argument bounds the number of
elements; the length of the text is always enough. -/
def parseElementos : Nat → JSString → Option (List JSString × JSString)
  | 0, _ => none
  | n + 1, texto =>
    match saltarBlancos texto with
    | [] => none
    | c :: resto =>
      if c.toNat = 0x22 then
        match parseCadena resto with
        | none => none
        | some (x, resto1) =>
          match saltarBlancos resto1 with
          | [] => none
          | d :: resto2 =>
            if d = ',' then
              match parseElementos n resto2 with
              | some (xs, fin) => some (x :: xs, fin)
              | none => none
            else if d = ']' then some ([x], resto2)
            else none
      else none

/-- The JSON values whose `Set` is a set of strings. -/
inductive ValorJSON where
  | nulo
  | cadena (s : JSString)
  | arreglo (xs : List JSString)
  deriving DecidableEq, Repr

/-- The call `JSON.parse(texto)` for a text that denotes `null`, a string or an
array of strings. `none` stands for every other text: one that is not JSON
(`JSON.parse` throws) and one whose value is outside the three shapes. -/
def jsonParse (texto : JSString) : Option ValorJSON :=
  match saltarBlancos texto with
  | [] => none
  | c :: resto =>
    if c.toNat = 0x22 then
      match parseCadena resto with
      | some (s, fin) => if saltarBlancos fin = [] then some (.cadena s) else none
      | none => none
    else if c = '[' then
      match saltarBlancos resto with
      | [] => none
      | d :: resto1 =>
        if d = ']' then
          if saltarBlancos resto1 = [] then some (.arreglo []) else none
        else
          match parseElementos texto.length resto with
          | some (xs, fin) => if saltarBlancos fin = [] then some (.arreglo xs) else none
          | none => none
    else if (c :: resto).take 4 = ['n', 'u', 'l', 'l'] then
      if saltarBlancos (resto.drop 3) = [] then some .nulo else none
    else none

/-- The constructor `new Set(valor)` on a parsed value: `null` gives the empty
set, a string the set of its characters, an array the set of its elements. -/
def setDeValor : ValorJSON → List JSString
  | .nulo => []
  | .cadena s => nuevoSet (s.map (fun c => [c]))
  | .arreglo xs => nuevoSet xs

/-! ## The document and the state of the page -/

/-- An element of the document, with what the script reads and writes of it. -/
structure Elemento where
  /-- The property `id` (empty when the element has no id attribute). -/
  id : JSString
  /-- Whether the class list has `ramo`: the element is a course node. -/
  esRamo : Bool
  /-- The property `dataset.requisitos` (`none` for `undefined`). -/
  requisitos : Option JSString
  /-- The property `textContent`. -/
  textContent : JSString
  /-- Whether the class list has `bloqueado`. -/
  bloqueado : Bool
  /-- Whether the class list has `aprobado`. -/
  aprobado : Bool
  deriving DecidableEq, Repr

/-- The state the script works on. -/
structure Estado where
  /-- The elements of the document, in tree order. -/
  documento : List Elemento
  /-- The set `ramosAprobados`. -/
  ramosAprobados : List JSString
  /-- The value of `localStorage` under `ramosAprobadosEnfermeria`. -/
  localStorage : Option JSString
  deriving DecidableEq, Repr

/-- The node list `ramos`: `document.querySelectorAll('.ramo')`. -/
def ramos (documento : List Elemento) : List Elemento :=
  documento.filter (fun e => e.esRamo)

/-- The function `guardarRamosAprobados`, as the value it leaves in storage. -/
def guardarRamosAprobados (aprobados : List JSString) : Option JSString :=
  some (jsonStringify aprobados)

/-- The array `requisitosFaltantes` of `actualizarEstadoVisual` (lines 37-45):
empty when the attribute is `undefined` or the empty string, else the pieces of
the attribute whose trimmed text is not in the set. -/
def requisitosFaltantes (aprobados : List JSString) (requisitosAttr : Option JSString) :
    List JSString :=
  match requisitosAttr with
  | none => []
  | some attr =>
    if attr = [] then []
    else (split attr).filter (fun reqId => !setHas aprobados (trim reqId))

/-- The body of the `forEach` of `actualizarEstadoVisual` (lines 36-65) for one
course node: the node with its new classes, and the set after it. -/
def actualizarRamo (aprobados : List JSString) (ramo : Elemento) :
    Elemento × List JSString :=
  if (requisitosFaltantes aprobados ramo.requisitos).length > 0 then
    ({ ramo with bloqueado := true, aprobado := false },
      if setHas aprobados ramo.id then setDelete aprobados ramo.id else aprobados)
  else
    ({ ramo with bloqueado := false, aprobado := setHas aprobados ramo.id }, aprobados)

/-- The loop `ramos.forEach` of `actualizarEstadoVisual` over the document:
course nodes are updated in tree order, other elements are left alone. -/
def actualizarRamos (aprobados : List JSString) :
    List Elemento → List Elemento × List JSString
  | [] => ([], aprobados)
  | e :: resto =>
    if e.esRamo then
      let r := actualizarRamo aprobados e
      let t := actualizarRamos r.2 resto
      (r.1 :: t.1, t.2)
    else
      let t := actualizarRamos aprobados resto
      (e :: t.1, t.2)

/-- The function `actualizarEstadoVisual`: the loop, then the save. -/
def actualizarEstadoVisual (st : Estado) : Estado :=
  let r := actualizarRamos st.ramosAprobados st.documento
  { documento := r.1, ramosAprobados := r.2, localStorage := guardarRamosAprobados r.2 }

/-- The function `cargarRamosAprobados` on the stored value: the empty set
when nothing (or the empty string) is stored, else the set of the parsed value;
`none` when the stored text is outside `jsonParse`. -/
def cargarRamosAprobados (almacen : Option JSString) : Option (List JSString) :=
  match almacen with
  | none => some []
  | some ramosGuardados =>
    if ramosGuardados = [] then some []
    else match jsonParse ramosGuardados with
      | some valor => some (setDeValor valor)
      | none => none

/-- The call `document.getElementById(x)`: the first element in tree order
whose id is `x`; the empty string is the id of no element. -/
def getElementById (documento : List Elemento) (x : JSString) : Option Elemento :=
  if x = [] then none else documento.find? (fun e => decide (e.id = x))

/-- The array `nombresRequisitosFaltantes` of `manejarClickEnRamo` (lines
85-90). -/
def nombresRequisitosFaltantes (documento : List Elemento) (aprobados : List JSString)
    (requisitosAttr : JSString) : List JSString :=
  ((split requisitosAttr).filter (fun reqId => !setHas aprobados (trim reqId))).map
    (fun reqId =>
      match getElementById documento (trim reqId) with
      | some elRequisito => elRequisito.textContent
      | none => reqId)

/-- The text passed to `alert` (line 92). -/
def mensajeBloqueado (nombres : List JSString) : JSString :=
  "⛔ Ramo bloqueado. Debes aprobar:\n\n• ".toList ++ join "\n• ".toList nombres

/-- What a click shows or raises besides changing the state. -/
inductive Salida where
  /-- Nothing is shown. -/
  | nada
  /-- The call `alert(mensaje)`. -/
  | alerta (mensaje : JSString)
  /-- The `TypeError` of `undefined.split` on line 83. -/
  | typeError
  deriving DecidableEq, Repr

/-- The function `manejarClickEnRamo` with `event.currentTarget = ramo`. -/
def manejarClickEnRamo (st : Estado) (ramo : Elemento) : Estado × Salida :=
  if ramo.bloqueado then
    match ramo.requisitos with
    | none => (st, .typeError)
    | some requisitosAttr =>
      (st, .alerta (mensajeBloqueado
        (nombresRequisitosFaltantes st.documento st.ramosAprobados requisitosAttr)))
  else
    let aprobados :=
      if setHas st.ramosAprobados ramo.id then setDelete st.ramosAprobados ramo.id
      else setAdd st.ramosAprobados ramo.id
    (actualizarEstadoVisual { st with ramosAprobados := aprobados }, .nada)

/-- A click on the `i`-th element of the document: the listener of line 111 is
on the course nodes only. -/
def clic (st : Estado) (i : Nat) : Estado × Salida :=
  match st.documento[i]? with
  | some e => if e.esRamo then manejarClickEnRamo st e else (st, .nada)
  | none => (st, .nada)

/-- The state after a list of clicks, oldest first. -/
def clics (st : Estado) (is : List Nat) : Estado :=
  is.foldl (fun s i => (clic s i).1) st

/-- The body of the `DOMContentLoaded` listener (lines 29 and 115): load the
set, then recompute. `none` when the load fails. -/
def inicializar (documento : List Elemento) (almacen : Option JSString) : Option Estado :=
  match cargarRamosAprobados almacen with
  | some aprobados =>
    some (actualizarEstadoVisual
      { documento := documento, ramosAprobados := aprobados, localStorage := almacen })
  | none => none

/-- The states of the page between two events: the one the initialization
leaves, and those reached from it by clicks. -/
inductive Alcanzable : Estado → Prop where
  | inicio (documento : List Elemento) (almacen : Option JSString) (st : Estado) :
      inicializar documento almacen = some st → Alcanzable st
  | clic (st : Estado) (i : Nat) : Alcanzable st → Alcanzable (clic st i).1

/-! ## Sample pages -/

/-- A course node as the page's markup gives it: carrying neither class yet. -/
def ramo (id : String) (requisitos : Option String) (texto : String) : Elemento :=
  { id := id.toList, esRamo := true, requisitos := requisitos.map String.toList,
    textContent := texto.toList, bloqueado := false, aprobado := false }

/-- The state that the initialization leaves when nothing is stored. -/
def estadoInicial (documento : List Elemento) : Estado :=
  actualizarEstadoVisual { documento := documento, ramosAprobados := [], localStorage := none }

/-- Three courses, each listed before its prerequisite: B requires C, C
requires A, and A requires nothing. -/
def mallaInvertida : List Elemento :=
  [ramo "B" (some "C") "Ramo B", ramo "C" (some "A") "Ramo C", ramo "A" none "Ramo A"]

/-- The page `mallaInvertida`, opened with nothing stored, once A, C and B have
been clicked in this order: the three courses are approved. -/
def invertidaAprobada : Estado :=
  clics (estadoInicial mallaInvertida) [2, 1, 0]

/-- The state on which the click on A in `invertidaAprobada` runs recompute:
line 98 has removed A from the set. -/
def invertidaSinA : Estado :=
  { invertidaAprobada with
    ramosAprobados := setDelete invertidaAprobada.ramosAprobados "A".toList }

/-- The page `mallaInvertida` after that click on A. -/
def invertidaTrasA : Estado :=
  (clic invertidaAprobada 2).1

/-- The page `mallaInvertida`, opened with nothing stored, once A, C and A again
have been clicked. -/
def invertidaBLibre : Estado :=
  clics (estadoInicial mallaInvertida) [2, 1, 2]

/-- Course A and two courses whose prerequisite attributes name no course
besides A: a lone comma, and a trailing comma after the id of A. -/
def mallaComas : List Elemento :=
  [ramo "A" none "Ramo A", ramo "X" (some ",") "Ramo X", ramo "Y" (some "A,") "Ramo Y"]

/-! ## Notions used to state the properties of recompute -/

/-- The prerequisite ids a course node is tested against (lines 41-44): none
when the attribute is `undefined` or the empty string, else the trimmed pieces
of the attribute, in order. -/
def idsRequisitos (e : Elemento) : List JSString :=
  match e.requisitos with
  | none => []
  | some attr => if attr = [] then [] else (split attr).map trim

/-- Whether the document lists prerequisites first: no course node has, among
its prerequisite ids, its own id or the id of a course node listed after it. -/
def requisitosAntes : List Elemento → Bool
  | [] => true
  | e :: resto =>
    (!e.esRamo ||
      (e :: resto).all (fun f => !f.esRamo || decide (f.id ∉ idsRequisitos e))) &&
    requisitosAntes resto

/-- Whether some course node of the document with id `y` carries the locked
class. -/
def idBloqueado (documento : List Elemento) (y : JSString) : Bool :=
  documento.any (fun e => e.esRamo && e.bloqueado && decide (e.id = y))

/-- The state after `k` consecutive runs of `actualizarEstadoVisual`. -/
def pasadas : Nat → Estado → Estado
  | 0, st => st
  | k + 1, st => actualizarEstadoVisual (pasadas k st)

/-- Course A, without prerequisites, and course B, which requires A. -/
def mallaAB : List Elemento :=
  [ramo "A" none "Anatomía", ramo "B" (some "A") "Bioquímica"]

/-- The courses of `mallaAB` with B listed first. -/
def mallaBA : List Elemento :=
  [ramo "B" (some "A") "Bioquímica", ramo "A" none "Anatomía"]

/-- The courses of `mallaInvertida` listed prerequisites first. -/
def mallaOrdenada : List Elemento :=
  [ramo "A" none "Ramo A", ramo "C" (some "A") "Ramo C", ramo "B" (some "C") "Ramo B"]

/-- Two course nodes with the same id X, the second with a prerequisite Z. -/
def mallaDuplicada : List Elemento :=
  [ramo "X" none "Ramo X", ramo "X" (some "Z") "Otro X"]

/-- A page whose second course names three prerequisites: A, which is a course
node, `Q`, which is the id of no element, and P, which is the id of an element
that is not a course node. -/
def mallaNombres : List Elemento :=
  [ramo "A" none "Anatomía",
   { id := "P".toList, esRamo := false, requisitos := none, textContent := "Pie".toList,
     bloqueado := false, aprobado := false },
   ramo "M" (some "A, Q ,P") "Microbiología"]

/-! ## The set operations -/

theorem setHas_iff (S : List JSString) (x : JSString) : setHas S x = true ↔ x ∈ S := by
  simp [setHas]

theorem mem_setDelete (S : List JSString) (x y : JSString) :
    y ∈ setDelete S x ↔ y ∈ S ∧ y ≠ x := by
  simp [setDelete]

theorem mem_setAdd (S : List JSString) (x y : JSString) :
    y ∈ setAdd S x ↔ y ∈ S ∨ y = x := by
  unfold setAdd
  split
  · constructor
    · intro h; exact Or.inl h
    · rintro (h | h)
      · exact h
      · subst h; assumption
  · simp

/-! ## One course node -/

theorem actualizarRamo_bloqueado (S : List JSString) (e : Elemento) :
    (actualizarRamo S e).1.bloqueado = true ↔
      ∃ reqId ∈ split (e.requisitos.getD []), e.requisitos.getD [] ≠ [] ∧ trim reqId ∉ S := by
  unfold actualizarRamo requisitosFaltantes
  cases hreq : e.requisitos with
  | none => simp
  | some attr =>
    by_cases hattr : attr = []
    · simp [hattr]
    · simp only [hattr, if_false, Option.getD_some, ne_eq, not_false_eq_true, true_and]
      split
      · rename_i h
        simp only [true_iff]
        obtain ⟨r, hr⟩ := List.exists_mem_of_length_pos h
        rw [List.mem_filter] at hr
        refine ⟨r, hr.1, ?_⟩
        simpa [setHas] using hr.2
      · rename_i h
        simp only [Bool.false_eq_true, false_iff]
        rintro ⟨r, hr, hS⟩
        apply h
        apply List.length_pos_of_mem (a := r)
        rw [List.mem_filter]
        exact ⟨hr, by simpa [setHas] using hS⟩

theorem actualizarRamo_mem (S : List JSString) (e : Elemento) (y : JSString) :
    y ∈ (actualizarRamo S e).2 ↔
      y ∈ S ∧ ¬ ((actualizarRamo S e).1.bloqueado = true ∧ (actualizarRamo S e).1.id = y) := by
  unfold actualizarRamo
  split
  · by_cases h : setHas S e.id = true
    · simp only [h, if_true, mem_setDelete]
      constructor
      · rintro ⟨h1, h2⟩; exact ⟨h1, fun h3 => h2 h3.2.symm⟩
      · rintro ⟨h1, h2⟩; exact ⟨h1, fun h3 => h2 ⟨trivial, h3.symm⟩⟩
    · simp only [h, if_false]
      constructor
      · intro h1
        refine ⟨h1, ?_⟩
        rintro ⟨-, h3⟩
        apply h
        rw [setHas_iff]
        simpa [h3] using h1
      · intro h1; exact h1.1
  · simp

theorem actualizarRamo_aprobado (S : List JSString) (e : Elemento) :
    (actualizarRamo S e).1.aprobado = true ↔
      (actualizarRamo S e).1.bloqueado = false ∧ e.id ∈ S := by
  unfold actualizarRamo
  split <;> simp [setHas]

theorem actualizarRamo_fijo (S : List JSString) (e : Elemento) :
    (actualizarRamo S e).1.id = e.id ∧ (actualizarRamo S e).1.esRamo = e.esRamo ∧
      (actualizarRamo S e).1.requisitos = e.requisitos ∧
      (actualizarRamo S e).1.textContent = e.textContent := by
  unfold actualizarRamo
  split <;> simp

/-! ## The loop over the document -/

theorem actualizarRamos_cons_ramo (S : List JSString) (e : Elemento) (resto : List Elemento)
    (h : e.esRamo = true) :
    actualizarRamos S (e :: resto) =
      ((actualizarRamo S e).1 :: (actualizarRamos (actualizarRamo S e).2 resto).1,
        (actualizarRamos (actualizarRamo S e).2 resto).2) := by
  simp [actualizarRamos, h]

theorem actualizarRamos_cons_otro (S : List JSString) (e : Elemento) (resto : List Elemento)
    (h : e.esRamo = false) :
    actualizarRamos S (e :: resto) =
      (e :: (actualizarRamos S resto).1, (actualizarRamos S resto).2) := by
  simp [actualizarRamos, h]

/-- The loop only removes ids from the set. -/
theorem actualizarRamos_subset (S : List JSString) (doc : List Elemento) :
    ∀ y ∈ (actualizarRamos S doc).2, y ∈ S := by
  induction doc generalizing S with
  | nil => intro y hy; simpa [actualizarRamos] using hy
  | cons e resto ih =>
    intro y hy
    cases h : e.esRamo with
    | true =>
      rw [actualizarRamos_cons_ramo S e resto h] at hy
      exact ((actualizarRamo_mem S e y).1 (ih _ y hy)).1
    | false =>
      rw [actualizarRamos_cons_otro S e resto h] at hy
      exact ih _ y hy

/-- Every course node of the document after the loop is the update of a course
node of the document before it, against a set between the initial and the
final one. -/
theorem actualizarRamos_traza (S : List JSString) (doc : List Elemento) :
    ∀ e' ∈ (actualizarRamos S doc).1, e'.esRamo = true →
      ∃ e ∈ doc, ∃ S' : List JSString, e.esRamo = true ∧ e' = (actualizarRamo S' e).1 ∧
        (∀ y ∈ S', y ∈ S) ∧
        (∀ y ∈ (actualizarRamos S doc).2, y ∈ (actualizarRamo S' e).2) := by
  induction doc generalizing S with
  | nil => intro e' he'; simp [actualizarRamos] at he'
  | cons e resto ih =>
    intro e' he' hr
    cases h : e.esRamo with
    | true =>
      rw [actualizarRamos_cons_ramo S e resto h] at he' ⊢
      rcases List.mem_cons.1 he' with heq | hmem
      · exact ⟨e, List.mem_cons_self _ _, S, h, heq, fun y hy => hy,
          fun y hy => actualizarRamos_subset _ _ y hy⟩
      · obtain ⟨e0, he0, S', h1, h2, h3, h4⟩ := ih _ e' hmem hr
        exact ⟨e0, List.mem_cons_of_mem _ he0, S', h1, h2,
          fun y hy => ((actualizarRamo_mem S e y).1 (h3 y hy)).1, h4⟩
    | false =>
      rw [actualizarRamos_cons_otro S e resto h] at he' ⊢
      rcases List.mem_cons.1 he' with heq | hmem
      · rw [heq, h] at hr; cases hr
      · obtain ⟨e0, he0, S', h1, h2, h3, h4⟩ := ih _ e' hmem hr
        exact ⟨e0, List.mem_cons_of_mem _ he0, S', h1, h2, h3, h4⟩

/-- The loop changes classes only: position by position, the id, the class
`ramo`, the prerequisite attribute and the text are those of the document. -/
theorem actualizarRamos_fijo (S : List JSString) (doc : List Elemento) :
    List.Forall₂ (fun e e' => e'.id = e.id ∧ e'.esRamo = e.esRamo ∧
      e'.requisitos = e.requisitos ∧ e'.textContent = e.textContent)
      doc (actualizarRamos S doc).1 := by
  induction doc generalizing S with
  | nil => simp [actualizarRamos]
  | cons e resto ih =>
    cases h : e.esRamo with
    | true =>
      rw [actualizarRamos_cons_ramo S e resto h]
      exact List.Forall₂.cons (actualizarRamo_fijo S e) (ih _)
    | false =>
      rw [actualizarRamos_cons_otro S e resto h]
      exact List.Forall₂.cons ⟨rfl, rfl, rfl, rfl⟩ (ih _)

/-- The set after the loop: the initial set without the ids of the course nodes
that end locked. -/
theorem mem_actualizarRamos (S : List JSString) (doc : List Elemento) (y : JSString) :
    y ∈ (actualizarRamos S doc).2 ↔
      y ∈ S ∧ ¬ ∃ e' ∈ (actualizarRamos S doc).1,
        e'.esRamo = true ∧ e'.bloqueado = true ∧ e'.id = y := by
  induction doc generalizing S with
  | nil => simp [actualizarRamos]
  | cons e resto ih =>
    cases h : e.esRamo with
    | true =>
      rw [actualizarRamos_cons_ramo S e resto h]
      simp only [ih, actualizarRamo_mem, List.mem_cons, exists_eq_or_imp,
        (actualizarRamo_fijo S e).2.1, h, true_and, not_or, and_assoc]
    | false =>
      rw [actualizarRamos_cons_otro S e resto h]
      simp only [ih, List.mem_cons, exists_eq_or_imp, h]
      simp

/-! ## Recompute as a whole -/

/-- A locked course node has a prerequisite piece whose trimmed id is absent
from the set when recompute returns. -/
theorem bloqueado_falta_requisito (st : Estado) (e' : Elemento)
    (he' : e' ∈ (actualizarEstadoVisual st).documento) (hr : e'.esRamo = true)
    (hb : e'.bloqueado = true) :
    ∃ attr, e'.requisitos = some attr ∧ attr ≠ [] ∧
      ∃ reqId ∈ split attr, trim reqId ∉ (actualizarEstadoVisual st).ramosAprobados := by
  obtain ⟨e, -, S', -, rfl, -, h4⟩ := actualizarRamos_traza st.ramosAprobados st.documento e' he' hr
  obtain ⟨reqId, h5, h6, h7⟩ := (actualizarRamo_bloqueado S' e).1 hb
  rw [(actualizarRamo_fijo S' e).2.2.1]
  cases hreq : e.requisitos with
  | none => simp [hreq] at h6
  | some attr =>
    rw [hreq] at h5 h6
    refine ⟨attr, rfl, h6, reqId, h5, fun h => h7 ?_⟩
    exact ((actualizarRamo_mem S' e _).1 (h4 _ h)).1

/-- After recompute the id of a locked course node is not in the set. -/
theorem bloqueado_fuera (st : Estado) (e' : Elemento)
    (he' : e' ∈ (actualizarEstadoVisual st).documento) (hr : e'.esRamo = true)
    (hb : e'.bloqueado = true) : e'.id ∉ (actualizarEstadoVisual st).ramosAprobados := by
  intro h
  exact ((mem_actualizarRamos st.ramosAprobados st.documento e'.id).1 h).2 ⟨e', he', hr, hb, rfl⟩

/-- Every reachable state is the result of a recompute. -/
theorem alcanzable_es_actualizado (st : Estado) (h : Alcanzable st) :
    ∃ st0, st = actualizarEstadoVisual st0 := by
  induction h with
  | inicio documento almacen st h =>
    unfold inicializar at h
    split at h
    · exact ⟨_, (Option.some.inj h).symm⟩
    · cases h
  | clic st i _ ih =>
    unfold clic
    split
    · split
      · unfold manejarClickEnRamo
        split
        · split <;> exact ih
        · exact ⟨_, rfl⟩
      · exact ih
    · exact ih

theorem alcanzable_clics (st : Estado) (is : List Nat) (h : Alcanzable st) :
    Alcanzable (clics st is) := by
  induction is generalizing st with
  | nil => exact h
  | cons i is ih => exact ih _ (Alcanzable.clic st i h)

theorem alcanzable_estadoInicial (documento : List Elemento) :
    Alcanzable (estadoInicial documento) :=
  Alcanzable.inicio documento none _ rfl

/-! ## The claims -/

/-- C1, the code at the failing input. On the page `mallaInvertida` with A, C
and B approved, the click on A runs recompute on the set C, B. When recompute
returns, the set is B alone: course B, which declares the prerequisite C, does
not carry the locked class although its only prerequisite id, C, is absent from
the set. -/
theorem C1_prerequisito_posterior_no_bloquea :
    Alcanzable invertidaAprobada ∧
    invertidaSinA.ramosAprobados = ["C".toList, "B".toList] ∧
    (clic invertidaAprobada 2).1 = actualizarEstadoVisual invertidaSinA ∧
    (actualizarEstadoVisual invertidaSinA).ramosAprobados = ["B".toList] ∧
    (actualizarEstadoVisual invertidaSinA).documento[0]? =
      some { id := "B".toList, esRamo := true, requisitos := some "C".toList,
             textContent := "Ramo B".toList, bloqueado := false, aprobado := true } ∧
    (split "C".toList).map trim = ["C".toList] ∧
    "C".toList ∉ (actualizarEstadoVisual invertidaSinA).ramosAprobados :=
  ⟨alcanzable_clics _ _ (alcanzable_estadoInicial _), by decide, by decide, by decide,
    by decide, by decide, by decide⟩

/-- C2, the code at the failing input. On the state `invertidaSinA` a first
recompute leaves the set B, the stored text `["B"]` and course B unlocked and
approved; a second recompute right after it leaves the empty set, the stored
text `[]` and course B locked. -/
theorem C2_segunda_pasada_cambia :
    (actualizarEstadoVisual invertidaSinA).ramosAprobados = ["B".toList] ∧
    (actualizarEstadoVisual invertidaSinA).localStorage = some "[\"B\"]".toList ∧
    ((actualizarEstadoVisual invertidaSinA).documento.map
      (fun e => (e.id, e.bloqueado, e.aprobado))) =
      [("B".toList, false, true), ("C".toList, true, false), ("A".toList, false, false)] ∧
    (actualizarEstadoVisual (actualizarEstadoVisual invertidaSinA)).ramosAprobados = [] ∧
    (actualizarEstadoVisual (actualizarEstadoVisual invertidaSinA)).localStorage =
      some "[]".toList ∧
    ((actualizarEstadoVisual (actualizarEstadoVisual invertidaSinA)).documento.map
      (fun e => (e.id, e.bloqueado, e.aprobado))) =
      [("B".toList, true, false), ("C".toList, true, false), ("A".toList, false, false)] :=
  ⟨by decide, by decide, by decide, by decide, by decide, by decide⟩

/-- C3. In every state reachable from the initialization by clicks, the id of a
course node that carries the locked class is not in the completed set. -/
theorem C3_bloqueado_no_en_aprobados (st : Estado) (h : Alcanzable st) (e : Elemento)
    (he : e ∈ st.documento) (hr : e.esRamo = true) (hb : e.bloqueado = true) :
    e.id ∉ st.ramosAprobados := by
  obtain ⟨st0, rfl⟩ := alcanzable_es_actualizado st h
  exact bloqueado_fuera st0 e he hr hb

/-- C3 at a concrete reachable state: on `invertidaTrasA` course C is locked and
its id is not in the completed set. -/
theorem C3_witness :
    Alcanzable invertidaTrasA ∧
    { ramo "C" (some "A") "Ramo C" with bloqueado := true } ∈ invertidaTrasA.documento ∧
    "C".toList ∉ invertidaTrasA.ramosAprobados :=
  ⟨Alcanzable.clic _ 2 (alcanzable_clics _ _ (alcanzable_estadoInicial _)), by decide,
    C3_bloqueado_no_en_aprobados invertidaTrasA
      (Alcanzable.clic _ 2 (alcanzable_clics _ _ (alcanzable_estadoInicial _)))
      { ramo "C" (some "A") "Ramo C" with bloqueado := true } (by decide) (by decide)
      (by decide)⟩

/-- C4, the code at the failing input. The state `invertidaBLibre` is reachable;
in it course B carries neither class and its id is not in the (empty) completed
set. After a click on B its id is still not in the set: line 100 adds it, and
the recompute of line 104 finds C missing, locks B and removes it again. -/
theorem C4_clic_no_alterna :
    Alcanzable invertidaBLibre ∧
    invertidaBLibre.ramosAprobados = [] ∧
    invertidaBLibre.documento[0]? =
      some { id := "B".toList, esRamo := true, requisitos := some "C".toList,
             textContent := "Ramo B".toList, bloqueado := false, aprobado := false } ∧
    "B".toList ∉ invertidaBLibre.ramosAprobados ∧
    "B".toList ∉ (clic invertidaBLibre 0).1.ramosAprobados ∧
    (clic invertidaBLibre 0).1.ramosAprobados = [] :=
  ⟨alcanzable_clics _ _ (alcanzable_estadoInicial _), by decide, by decide, by decide,
    by decide, by decide⟩

/-- C5, the code at the failing input. The state `invertidaTrasA` is reachable;
its completed set is B alone and course A carries neither class. Two clicks on A
in succession leave the empty set: B was in the set before the first click and
is not in it after the second. -/
theorem C5_doble_clic_no_restaura :
    Alcanzable invertidaTrasA ∧
    invertidaTrasA.ramosAprobados = ["B".toList] ∧
    invertidaTrasA.documento[2]? =
      some { id := "A".toList, esRamo := true, requisitos := none,
             textContent := "Ramo A".toList, bloqueado := false, aprobado := false } ∧
    (clic invertidaTrasA 2).1.ramosAprobados = ["A".toList] ∧
    (clic (clic invertidaTrasA 2).1 2).1.ramosAprobados = [] ∧
    "B".toList ∈ invertidaTrasA.ramosAprobados ∧
    "B".toList ∉ (clic (clic invertidaTrasA 2).1 2).1.ramosAprobados :=
  ⟨Alcanzable.clic _ 2 (alcanzable_clics _ _ (alcanzable_estadoInicial _)), by decide,
    by decide, by decide, by decide, by decide, by decide⟩

/-- C6. A click on a course node that carries the locked class leaves the state
as it is (document, completed set and stored value); when the node has a
prerequisite attribute the click shows the alert, and otherwise line 83 raises. -/
theorem C6_clic_bloqueado_sin_cambio (st : Estado) (e : Elemento) (hb : e.bloqueado = true) :
    (manejarClickEnRamo st e).1 = st ∧
    (∀ i, st.documento[i]? = some e → (clic st i).1 = st) ∧
    (∀ attr, e.requisitos = some attr →
      (manejarClickEnRamo st e).2 = Salida.alerta (mensajeBloqueado
        (nombresRequisitosFaltantes st.documento st.ramosAprobados attr))) ∧
    (e.requisitos = none → (manejarClickEnRamo st e).2 = Salida.typeError) := by
  have h1 : (manejarClickEnRamo st e).1 = st := by
    unfold manejarClickEnRamo
    rw [if_pos hb]
    split <;> rfl
  refine ⟨h1, ?_, ?_, ?_⟩
  · intro i hi
    have hc : clic st i = if e.esRamo = true then manejarClickEnRamo st e
        else (st, Salida.nada) := by
      unfold clic
      rw [hi]
    rw [hc]
    split
    · exact h1
    · rfl
  · intro attr ha
    unfold manejarClickEnRamo
    rw [if_pos hb, ha]
  · intro ha
    unfold manejarClickEnRamo
    rw [if_pos hb, ha]

/-- C6 at a concrete state: right after the initialization of `mallaInvertida`
course B is locked, and a click on it leaves the state as it is. -/
theorem C6_witness :
    (manejarClickEnRamo (estadoInicial mallaInvertida)
      { ramo "B" (some "C") "Ramo B" with bloqueado := true }).1 = estadoInicial mallaInvertida ∧
    (estadoInicial mallaInvertida).documento[0]? =
      some { ramo "B" (some "C") "Ramo B" with bloqueado := true } ∧
    (clic (estadoInicial mallaInvertida) 0).1 = estadoInicial mallaInvertida :=
  ⟨(C6_clic_bloqueado_sin_cambio (estadoInicial mallaInvertida)
      { ramo "B" (some "C") "Ramo B" with bloqueado := true } rfl).1, by decide,
    (C6_clic_bloqueado_sin_cambio (estadoInicial mallaInvertida)
      { ramo "B" (some "C") "Ramo B" with bloqueado := true } rfl).2.1 0 (by decide)⟩

/-! ## Clicks and the set -/

/-- A click adds at most the id of the clicked node, and only if the node is an
unlocked course node. -/
theorem clic_agrega_solo_su_id (st : Estado) (i : Nat) (y : JSString)
    (h1 : y ∈ (clic st i).1.ramosAprobados) (h2 : y ∉ st.ramosAprobados) :
    ∃ e, st.documento[i]? = some e ∧ e.esRamo = true ∧ e.bloqueado = false ∧ e.id = y := by
  unfold clic at h1
  cases hi : st.documento[i]? with
  | none => rw [hi] at h1; exact absurd h1 h2
  | some e =>
    rw [hi] at h1
    simp only at h1
    cases hr : e.esRamo with
    | false => rw [hr] at h1; exact absurd h1 h2
    | true =>
      rw [hr, if_pos rfl] at h1
      unfold manejarClickEnRamo at h1
      cases hb : e.bloqueado with
      | true =>
        rw [hb, if_pos rfl] at h1
        have : ∀ o : Option JSString, (match o with
            | none => (st, Salida.typeError)
            | some requisitosAttr => (st, Salida.alerta (mensajeBloqueado
                (nombresRequisitosFaltantes st.documento st.ramosAprobados
                  requisitosAttr)))).1 = st := by
          intro o; cases o <;> rfl
        rw [this] at h1
        exact absurd h1 h2
      | false =>
        refine ⟨e, rfl, hr, hb, ?_⟩
        rw [hb] at h1
        simp only [Bool.false_eq_true, if_false] at h1
        have h3 := actualizarRamos_subset _ _ y h1
        simp only at h3
        split at h3
        · exact absurd ((mem_setDelete _ _ _).1 h3).1 h2
        · rcases (mem_setAdd _ _ _).1 h3 with h4 | h4
          · exact absurd h4 h2
          · exact h4.symm

/-- An id that is absent before a list of clicks and present after it was
clicked on the way, on an unlocked course node. -/
theorem clics_agrega_solo_clicados (st : Estado) (is : List Nat) (y : JSString)
    (h1 : y ∉ st.ramosAprobados) (h2 : y ∈ (clics st is).ramosAprobados) :
    ∃ pre i post e, is = pre ++ i :: post ∧ (clics st pre).documento[i]? = some e ∧
      e.esRamo = true ∧ e.bloqueado = false ∧ e.id = y := by
  induction is generalizing st with
  | nil => exact absurd h2 h1
  | cons i is ih =>
    by_cases h3 : y ∈ (clic st i).1.ramosAprobados
    · obtain ⟨e, h4, h5, h6, h7⟩ := clic_agrega_solo_su_id st i y h3 h1
      exact ⟨[], i, is, e, rfl, h4, h5, h6, h7⟩
    · obtain ⟨pre, j, post, e, h4, h5, h6, h7, h8⟩ := ih (clic st i).1 h3 h2
      exact ⟨i :: pre, j, post, e, by rw [h4]; rfl, h5, h6, h7, h8⟩

/-- C7. Recompute only removes ids from the completed set; a click adds no id
but that of the clicked node, and only when that node is an unlocked course
node; so an id absent from the set (evicted, for one) is in the set after a list
of clicks only if one of those clicks was on a course node with that id while
it was unlocked. -/
theorem C7_evicto_no_vuelve_solo :
    (∀ (st : Estado) (y : JSString),
      y ∈ (actualizarEstadoVisual st).ramosAprobados → y ∈ st.ramosAprobados) ∧
    (∀ (st : Estado) (i : Nat) (y : JSString),
      y ∈ (clic st i).1.ramosAprobados → y ∉ st.ramosAprobados →
      ∃ e, st.documento[i]? = some e ∧ e.esRamo = true ∧ e.bloqueado = false ∧ e.id = y) ∧
    (∀ (st : Estado) (is : List Nat) (y : JSString),
      y ∉ st.ramosAprobados → y ∈ (clics st is).ramosAprobados →
      ∃ pre i post e, is = pre ++ i :: post ∧ (clics st pre).documento[i]? = some e ∧
        e.esRamo = true ∧ e.bloqueado = false ∧ e.id = y) :=
  ⟨fun st y h => actualizarRamos_subset st.ramosAprobados st.documento y h,
    fun st i y h1 h2 => clic_agrega_solo_su_id st i y h1 h2,
    fun st is y h1 h2 => clics_agrega_solo_clicados st is y h1 h2⟩

/-- C7 on a concrete run: C is approved, evicted by the click on A, still absent
after A is approved again, and back only after the click on C itself. -/
theorem C7_witness :
    "C".toList ∈ invertidaAprobada.ramosAprobados ∧
    "C".toList ∉ invertidaTrasA.ramosAprobados ∧
    "C".toList ∉ (clics invertidaTrasA [2]).ramosAprobados ∧
    "C".toList ∈ (clics invertidaTrasA [2, 1]).ramosAprobados ∧
    ∃ pre i post e, [2, 1] = pre ++ i :: post ∧
      (clics invertidaTrasA pre).documento[i]? = some e ∧
      e.esRamo = true ∧ e.bloqueado = false ∧ e.id = "C".toList :=
  ⟨by decide, by decide, by decide, by decide,
    C7_evicto_no_vuelve_solo.2.2 invertidaTrasA [2, 1] "C".toList (by decide) (by decide)⟩

/-! ## Classes after recompute -/

/-- The ids of the course nodes after the loop are ids of course nodes before. -/
theorem id_mem_ramos (S : List JSString) (doc : List Elemento) (e' : Elemento)
    (he' : e' ∈ (actualizarRamos S doc).1) (hr : e'.esRamo = true) :
    e'.id ∈ (ramos doc).map (fun e => e.id) := by
  obtain ⟨e, he, S', h1, rfl, -, -⟩ := actualizarRamos_traza S doc e' he' hr
  rw [(actualizarRamo_fijo S' e).1]
  exact List.mem_map.2 ⟨e, List.mem_filter.2 ⟨he, h1⟩, rfl⟩

theorem clases_tras_actualizarRamos (S : List JSString) (doc : List Elemento)
    (hu : ((ramos doc).map (fun e => e.id)).Nodup) :
    ∀ e' ∈ (actualizarRamos S doc).1, e'.esRamo = true →
      ¬ (e'.bloqueado = true ∧ e'.aprobado = true) ∧
      (e'.bloqueado = false → (e'.aprobado = true ↔ e'.id ∈ (actualizarRamos S doc).2)) := by
  induction doc generalizing S with
  | nil => intro e' he'; simp [actualizarRamos] at he'
  | cons e resto ih =>
    intro e' he' hr
    cases h : e.esRamo with
    | true =>
      have hu' : (e.id :: (ramos resto).map (fun e => e.id)).Nodup := by
        simpa [ramos, List.filter_cons, h] using hu
      rw [actualizarRamos_cons_ramo S e resto h] at he' ⊢
      rcases List.mem_cons.1 he' with heq | hmem
      · subst heq
        constructor
        · rintro ⟨h1, h2⟩
          rw [((actualizarRamo_aprobado S e).1 h2).1] at h1
          cases h1
        · intro hb
          rw [actualizarRamo_aprobado, mem_actualizarRamos, actualizarRamo_mem,
            (actualizarRamo_fijo S e).1]
          constructor
          · rintro ⟨-, h2⟩
            refine ⟨⟨h2, fun h3 => by rw [hb] at h3; cases h3.1⟩, ?_⟩
            rintro ⟨e2, h4, h5, -, h6⟩
            have := id_mem_ramos _ _ e2 h4 h5
            rw [h6] at this
            exact (List.nodup_cons.1 hu').1 this
          · rintro ⟨⟨h2, -⟩, -⟩
            exact ⟨hb, h2⟩
      · exact ih _ (List.nodup_cons.1 hu').2 e' hmem hr
    | false =>
      have hu' : ((ramos resto).map (fun e => e.id)).Nodup := by
        simpa [ramos, List.filter_cons, h] using hu
      rw [actualizarRamos_cons_otro S e resto h] at he' ⊢
      rcases List.mem_cons.1 he' with heq | hmem
      · rw [heq, h] at hr; cases hr
      · exact ih _ hu' e' hmem hr

/-- C8. After recompute, when the ids of the course nodes are unique, a course
node never carries both the locked and the completed class, and a course node
without the locked class carries the completed class if and only if its id is in
the completed set as recompute leaves it. -/
theorem C8_clases_tras_actualizar (st : Estado)
    (hu : ((ramos st.documento).map (fun e => e.id)).Nodup) (e' : Elemento)
    (he' : e' ∈ (actualizarEstadoVisual st).documento) (hr : e'.esRamo = true) :
    ¬ (e'.bloqueado = true ∧ e'.aprobado = true) ∧
    (e'.bloqueado = false →
      (e'.aprobado = true ↔ e'.id ∈ (actualizarEstadoVisual st).ramosAprobados)) :=
  clases_tras_actualizarRamos st.ramosAprobados st.documento hu e' he' hr

/-- C8 at a concrete state: after recompute on `invertidaSinA` course B is
unlocked, carries the completed class, and its id is in the completed set. -/
theorem C8_witness :
    ((ramos invertidaSinA.documento).map (fun e => e.id)).Nodup ∧
    { ramo "B" (some "C") "Ramo B" with aprobado := true } ∈
      (actualizarEstadoVisual invertidaSinA).documento ∧
    "B".toList ∈ (actualizarEstadoVisual invertidaSinA).ramosAprobados :=
  ⟨by decide, by decide,
    ((C8_clases_tras_actualizar invertidaSinA (by decide)
      { ramo "B" (some "C") "Ramo B" with aprobado := true } (by decide) rfl).2 rfl).1 rfl⟩

/-! ## Saving and loading -/

theorem mem_foldl_setAdd (xs acc : List JSString) (x : JSString) :
    x ∈ xs.foldl setAdd acc ↔ x ∈ acc ∨ x ∈ xs := by
  induction xs generalizing acc with
  | nil => simp
  | cons a xs ih =>
    rw [List.foldl_cons, ih, mem_setAdd, List.mem_cons]
    constructor
    · rintro ((h | h) | h)
      · exact Or.inl h
      · exact Or.inr (Or.inl h)
      · exact Or.inr (Or.inr h)
    · rintro (h | h | h)
      · exact Or.inl (Or.inl h)
      · exact Or.inl (Or.inr h)
      · exact Or.inr h

theorem foldl_setAdd_nodup (xs acc : List JSString) (h : (acc ++ xs).Nodup) :
    xs.foldl setAdd acc = acc ++ xs := by
  induction xs generalizing acc with
  | nil => simp
  | cons a xs ih =>
    have ha : a ∉ acc := by
      intro hm
      have := List.nodup_append.1 h
      exact this.2.2 hm (List.mem_cons_self _ _)
    have h' : ((acc ++ [a]) ++ xs).Nodup := by simpa using h
    rw [List.foldl_cons, setAdd, if_neg ha, ih _ h']
    simp

theorem mem_nuevoSet (xs : List JSString) (x : JSString) : x ∈ nuevoSet xs ↔ x ∈ xs := by
  simp [nuevoSet, mem_foldl_setAdd]

theorem nuevoSet_nodup (xs : List JSString) (h : xs.Nodup) : nuevoSet xs = xs := by
  have := foldl_setAdd_nodup xs [] (by simpa using h)
  simpa [nuevoSet] using this

theorem parseCadena_escapeSimple (e x : Char) (cola s fin : JSString)
    (he : e.toNat ≠ 0x75) (hx : escapeSimple e = some x)
    (h : parseCadena cola = some (s, fin)) :
    parseCadena ('\\' :: e :: cola) = some (x :: s, fin) := by
  rw [parseCadena.eq_def]
  simp [he, hx, h]

theorem parseCadena_escapeUnicode (a b c d x : Char) (cola s fin : JSString)
    (hx : escapeUnicode a b c d = some x) (h : parseCadena cola = some (s, fin)) :
    parseCadena ('\\' :: 'u' :: a :: b :: c :: d :: cola) = some (x :: s, fin) := by
  rw [parseCadena.eq_def]
  simp [hx, h]

theorem escapeUnicode_control :
    ∀ n < 32, escapeUnicode '0' '0' (digitoHex (n / 16)) (digitoHex (n % 16)) =
      some (Char.ofNat n) := by
  decide

/-- Reading back the escape of one character. -/
theorem parseCadena_quoteChar (c : Char) (cola s fin : JSString)
    (h : parseCadena cola = some (s, fin)) :
    parseCadena (quoteChar c ++ cola) = some (c :: s, fin) := by
  have hc : Char.ofNat c.toNat = c := Char.ofNat_toNat c
  unfold quoteChar
  simp only
  split
  · rename_i hn
    rw [← hc, hn]
    exact parseCadena_escapeSimple 'b' _ cola s fin (by decide) (by decide) h
  split
  · rename_i hn
    rw [← hc, hn]
    exact parseCadena_escapeSimple 't' _ cola s fin (by decide) (by decide) h
  split
  · rename_i hn
    rw [← hc, hn]
    exact parseCadena_escapeSimple 'n' _ cola s fin (by decide) (by decide) h
  split
  · rename_i hn
    rw [← hc, hn]
    exact parseCadena_escapeSimple 'f' _ cola s fin (by decide) (by decide) h
  split
  · rename_i hn
    rw [← hc, hn]
    exact parseCadena_escapeSimple 'r' _ cola s fin (by decide) (by decide) h
  split
  · rename_i hn
    rw [← hc, hn]
    exact parseCadena_escapeSimple '"' _ cola s fin (by decide) (by decide) h
  split
  · rename_i hn
    rw [← hc, hn]
    exact parseCadena_escapeSimple '\\' _ cola s fin (by decide) (by decide) h
  split
  · rename_i hn
    conv_rhs => rw [← hc]
    exact parseCadena_escapeUnicode _ _ _ _ _ cola s fin (escapeUnicode_control _ hn) h
  · rename_i h1 h2 h3
    rw [List.singleton_append, parseCadena.eq_def]
    simp [h1, h2, h3, h]

/-- Reading back the body of a quoted string. -/
theorem parseCadena_quote (s fin : JSString) :
    parseCadena (s.flatMap quoteChar ++ '"' :: fin) = some (s, fin) := by
  induction s with
  | nil => rw [List.flatMap_nil, List.nil_append, parseCadena.eq_def]; simp
  | cons c s ih =>
    rw [List.flatMap_cons, List.append_assoc]
    exact parseCadena_quoteChar c _ s fin ih

theorem saltarBlancos_cons (c : Char) (s : JSString) (h : esBlancoJSON c = false) :
    saltarBlancos (c :: s) = c :: s := by
  simp [saltarBlancos, List.dropWhile_cons, h]

theorem join_cons_cons (sep p q : JSString) (ps : List JSString) :
    join sep (p :: q :: ps) = p ++ sep ++ join sep (q :: ps) := rfl

theorem length_join_quote (xs : List JSString) :
    xs.length ≤ (join [','] (xs.map quoteJSONString)).length := by
  induction xs with
  | nil => simp
  | cons x xs ih =>
    cases xs with
    | nil => simp [join, quoteJSONString]
    | cons y ys =>
      rw [List.map_cons, List.map_cons, join_cons_cons]
      rw [List.map_cons] at ih
      simp only [List.length_append, List.length_cons, List.length_nil] at ih ⊢
      omega

/-- Reading back the elements of a saved array. -/
theorem parseElementos_join (xs : List JSString) (hne : xs ≠ []) (n : Nat)
    (hn : xs.length ≤ n) (fin : JSString) :
    parseElementos n (join [','] (xs.map quoteJSONString) ++ ']' :: fin) = some (xs, fin) := by
  induction xs generalizing n with
  | nil => exact absurd rfl hne
  | cons x xs ih =>
    cases n with
    | zero => simp at hn
    | succ m =>
      cases xs with
      | nil =>
        have ht : join [','] ([x].map quoteJSONString) ++ ']' :: fin =
            '"' :: (x.flatMap quoteChar ++ '"' :: ']' :: fin) := by
          simp [join, quoteJSONString]
        rw [ht, parseElementos, saltarBlancos_cons _ _ (by decide)]
        simp only [parseCadena_quote, saltarBlancos_cons ']' fin (by decide)]
        simp
      | cons y ys =>
        have ht : join [','] ((x :: y :: ys).map quoteJSONString) ++ ']' :: fin =
            '"' :: (x.flatMap quoteChar ++ '"' :: ',' ::
              (join [','] ((y :: ys).map quoteJSONString) ++ ']' :: fin)) := by
          simp [join_cons_cons, quoteJSONString]
        have hrec := ih (by simp) m (by simpa using hn)
        rw [ht, parseElementos, saltarBlancos_cons _ _ (by decide)]
        simp only [parseCadena_quote, saltarBlancos_cons ',' _ (by decide), hrec]
        simp

/-- What `JSON.parse` reads from the text `JSON.stringify` writes for an array
of strings is that array. -/
theorem jsonParse_jsonStringify (xs : List JSString) :
    jsonParse (jsonStringify xs) = some (ValorJSON.arreglo xs) := by
  cases xs with
  | nil => decide
  | cons x xs =>
    have hq : join [','] ((x :: xs).map quoteJSONString) ++ [']'] =
        '"' :: ((join [','] ((x :: xs).map quoteJSONString)).drop 1 ++ [']']) := by
      cases xs with
      | nil => simp [join, quoteJSONString]
      | cons y ys => simp [join_cons_cons, quoteJSONString]
    have hlen : (x :: xs).length ≤ (jsonStringify (x :: xs)).length := by
      have := length_join_quote (x :: xs)
      simp only [jsonStringify, List.length_cons, List.length_append] at this ⊢
      omega
    have hp := parseElementos_join (x :: xs) (by simp) _ hlen []
    unfold jsonParse
    rw [show jsonStringify (x :: xs) =
      '[' :: (join [','] ((x :: xs).map quoteJSONString) ++ [']']) from rfl] at hp ⊢
    rw [saltarBlancos_cons _ _ (by decide)]
    simp only [hp]
    rw [hq, saltarBlancos_cons _ _ (by decide)]
    simp [saltarBlancos]

theorem jsonStringify_ne_nil (xs : List JSString) : jsonStringify xs ≠ [] := by
  simp [jsonStringify]

theorem cargar_guardar (S : List JSString) :
    cargarRamosAprobados (guardarRamosAprobados S) = some (nuevoSet S) := by
  simp [cargarRamosAprobados, guardarRamosAprobados, jsonStringify_ne_nil,
    jsonParse_jsonStringify, setDeValor]

/-- C9. Loading after saving a completed set gives a set with exactly the ids
that were saved (the empty set included), and the very same set, in the same
order, when the saved list has no repeated id, as a JavaScript `Set` has none. -/
theorem C9_guardar_y_cargar (S : List JSString) :
    cargarRamosAprobados (guardarRamosAprobados S) = some (nuevoSet S) ∧
    (∀ x, x ∈ nuevoSet S ↔ x ∈ S) ∧
    (S.Nodup → cargarRamosAprobados (guardarRamosAprobados S) = some S) :=
  ⟨cargar_guardar S, mem_nuevoSet S, fun h => by rw [cargar_guardar, nuevoSet_nodup S h]⟩

/-- C9 on concrete sets: a set of two ids, one with characters that are escaped
in the stored text, and the empty set. -/
theorem C9_witness :
    guardarRamosAprobados ["A".toList, "B \"2\"\n".toList] =
      some "[\"A\",\"B \\\"2\\\"\\n\"]".toList ∧
    cargarRamosAprobados (guardarRamosAprobados ["A".toList, "B \"2\"\n".toList]) =
      some ["A".toList, "B \"2\"\n".toList] ∧
    cargarRamosAprobados (guardarRamosAprobados []) = some [] :=
  ⟨by decide, (C9_guardar_y_cargar _).2.2 (by decide), (C9_guardar_y_cargar []).2.2 (by decide)⟩

/-! ## Prerequisite attributes that name no course -/

theorem split_ne_nil (s : JSString) : split s ≠ [] := by
  cases s with
  | nil => simp [split]
  | cons c cs =>
    unfold split
    split
    · simp
    · split <;> simp

theorem mem_split_chars (s : JSString) :
    ∀ p ∈ split s, ∀ c ∈ p, c ∈ s ∧ c ≠ ',' := by
  induction s with
  | nil => intro p hp c hc; simp [split] at hp; subst hp; cases hc
  | cons a cs ih =>
    intro p hp c hc
    unfold split at hp
    split at hp
    · rcases List.mem_cons.1 hp with h | h
      · subst h; cases hc
      · exact ⟨List.mem_cons_of_mem _ (ih p h c hc).1, (ih p h c hc).2⟩
    · rename_i hne
      split at hp
      · rename_i heq
        exact absurd heq (split_ne_nil cs)
      · rename_i q qs heq
        rcases List.mem_cons.1 hp with h | h
        · subst h
          rcases List.mem_cons.1 hc with h1 | h1
          · subst h1; exact ⟨List.mem_cons_self _ _, hne⟩
          · have := ih q (by rw [heq]; exact List.mem_cons_self _ _) c h1
            exact ⟨List.mem_cons_of_mem _ this.1, this.2⟩
        · have := ih p (by rw [heq]; exact List.mem_cons_of_mem _ h) c hc
          exact ⟨List.mem_cons_of_mem _ this.1, this.2⟩

theorem trim_blancos (p : JSString) (h : ∀ c ∈ p, esEspacioJS c = true) : trim p = [] := by
  unfold trim
  rw [List.dropWhile_eq_nil_iff.2 h]
  rfl

/-- The pieces of an attribute made of commas and white space all trim to the
empty id. -/
theorem trim_split_comas (attr : JSString)
    (h : ∀ c ∈ attr, c = ',' ∨ esEspacioJS c = true) :
    ∀ p ∈ split attr, trim p = [] := by
  intro p hp
  apply trim_blancos
  intro c hc
  obtain ⟨h1, h2⟩ := mem_split_chars attr p hp c hc
  rcases h c h1 with h3 | h3
  · exact absurd h3 h2
  · exact h3

/-- C10, as amended. After recompute a course node whose prerequisite attribute
is absent or empty is unlocked, whatever the completed set. A non-empty
attribute made only of commas and white space is read as the empty id: the node
is locked when the empty id is not in the completed set recompute started from,
and unlocked when the empty id is in the set recompute leaves. -/
theorem C10_atributo_ausente_o_vacio (st : Estado) (e' : Elemento)
    (he' : e' ∈ (actualizarEstadoVisual st).documento) (hr : e'.esRamo = true) :
    ((e'.requisitos = none ∨ e'.requisitos = some []) → e'.bloqueado = false) ∧
    (∀ attr, e'.requisitos = some attr → attr ≠ [] →
      (∀ c ∈ attr, c = ',' ∨ esEspacioJS c = true) →
      ([] ∉ st.ramosAprobados → e'.bloqueado = true) ∧
      ([] ∈ (actualizarEstadoVisual st).ramosAprobados → e'.bloqueado = false)) := by
  obtain ⟨e, -, S', -, rfl, h3, h4⟩ :=
    actualizarRamos_traza st.ramosAprobados st.documento e' he' hr
  rw [(actualizarRamo_fijo S' e).2.2.1]
  constructor
  · intro h
    rw [← Bool.not_eq_true, actualizarRamo_bloqueado]
    rintro ⟨reqId, -, h5, -⟩
    rcases h with h | h <;> simp [h] at h5
  · intro attr ha hne hc
    have hb : (actualizarRamo S' e).1.bloqueado = true ↔ [] ∉ S' := by
      rw [actualizarRamo_bloqueado, ha]
      simp only [Option.getD_some]
      constructor
      · rintro ⟨reqId, h5, -, h6⟩
        rwa [trim_split_comas attr hc reqId h5] at h6
      · intro h6
        obtain ⟨p, hp⟩ := List.exists_mem_of_ne_nil _ (split_ne_nil attr)
        exact ⟨p, hp, hne, by rwa [trim_split_comas attr hc p hp]⟩
    constructor
    · intro h5
      exact hb.2 (fun h6 => h5 (h3 _ h6))
    · intro h5
      rw [← Bool.not_eq_true, hb, not_not]
      exact ((actualizarRamo_mem S' e _).1 (h4 _ h5)).1

/-- C10 as amended, at a concrete page: course A of `mallaComas`, which has no
prerequisite attribute, is unlocked after recompute. -/
theorem C10_witness :
    ramo "A" none "Ramo A" ∈
      (actualizarEstadoVisual ⟨mallaComas, [], none⟩).documento ∧
    (ramo "A" none "Ramo A").bloqueado = false :=
  ⟨by decide,
    (C10_atributo_ausente_o_vacio ⟨mallaComas, [], none⟩ (ramo "A" none "Ramo A")
      (by decide) rfl).1 (Or.inl rfl)⟩

/-- C10 as stated fails. The attributes `,` and `A,` name no course id besides
A (their other pieces trim to the empty id), yet with A completed recompute
locks both the course with the lone comma and the course with the trailing
comma. -/
theorem C10_counterexample :
    (split ",".toList).map trim = [[], []] ∧
    (split "A,".toList).map trim = ["A".toList, []] ∧
    (actualizarEstadoVisual ⟨mallaComas, ["A".toList], none⟩).ramosAprobados = ["A".toList] ∧
    (actualizarEstadoVisual ⟨mallaComas, ["A".toList], none⟩).documento.map
      (fun e => (e.id, e.requisitos, e.bloqueado)) =
      [("A".toList, none, false), ("X".toList, some ",".toList, true),
        ("Y".toList, some "A,".toList, true)] :=
  ⟨by decide, by decide, by decide, by decide⟩

/-! ## Nodes without a prerequisite attribute -/

/-- Position by position, recompute keeps the id, the class `ramo`, the
prerequisite attribute and the text of every element. -/
theorem actualizarRamos_getElem (S : List JSString) (doc : List Elemento) (i : Nat)
    (e : Elemento) (h : doc[i]? = some e) :
    ∃ e', (actualizarRamos S doc).1[i]? = some e' ∧ e' ∈ (actualizarRamos S doc).1 ∧
      e'.id = e.id ∧ e'.esRamo = e.esRamo ∧ e'.requisitos = e.requisitos ∧
      e'.textContent = e.textContent := by
  induction doc generalizing S i with
  | nil => simp at h
  | cons a resto ih =>
    cases hr : a.esRamo with
    | true =>
      rw [actualizarRamos_cons_ramo S a resto hr]
      cases i with
      | zero =>
        simp only [List.getElem?_cons_zero, Option.some.injEq] at h
        subst h
        exact ⟨(actualizarRamo S a).1, by simp, List.mem_cons_self _ _,
          actualizarRamo_fijo S a⟩
      | succ j =>
        simp only [List.getElem?_cons_succ] at h
        obtain ⟨e', h1, h2, h3⟩ := ih (actualizarRamo S a).2 j h
        exact ⟨e', by simpa using h1, List.mem_cons_of_mem _ h2, h3⟩
    | false =>
      rw [actualizarRamos_cons_otro S a resto hr]
      cases i with
      | zero =>
        simp only [List.getElem?_cons_zero, Option.some.injEq] at h
        subst h
        exact ⟨a, by simp, List.mem_cons_self _ _, rfl, rfl, rfl, rfl⟩
      | succ j =>
        simp only [List.getElem?_cons_succ] at h
        obtain ⟨e', h1, h2, h3⟩ := ih S j h
        exact ⟨e', by simpa using h1, List.mem_cons_of_mem _ h2, h3⟩

/-- After recompute a course node whose prerequisite attribute is absent or
empty does not carry the locked class. -/
theorem sin_requisitos_desbloqueado (st : Estado) (e' : Elemento)
    (he' : e' ∈ (actualizarEstadoVisual st).documento) (hr : e'.esRamo = true)
    (hq : e'.requisitos = none ∨ e'.requisitos = some []) : e'.bloqueado = false := by
  obtain ⟨e, -, S', -, rfl, -, -⟩ :=
    actualizarRamos_traza st.ramosAprobados st.documento e' he' hr
  rw [(actualizarRamo_fijo S' e).2.2.1] at hq
  rw [← Bool.not_eq_true, actualizarRamo_bloqueado]
  rintro ⟨reqId, -, h5, -⟩
  rcases hq with h | h <;> simp [h] at h5

/-- C11. Whatever the completed set, recompute leaves every course node that
has no prerequisite attribute without the locked class (stated for the node at
each position of the document and for the nodes of the result); in every
reachable state such a node is unlocked, and a click on it takes the toggle
branch: it shows nothing and runs recompute on the set with the id toggled. -/
theorem C11_sin_atributo_siempre_desbloqueado :
    (∀ (st : Estado) (i : Nat) (e : Elemento), st.documento[i]? = some e →
      e.esRamo = true → e.requisitos = none →
      ∃ e', (actualizarEstadoVisual st).documento[i]? = some e' ∧ e'.id = e.id ∧
        e'.esRamo = true ∧ e'.requisitos = none ∧ e'.bloqueado = false) ∧
    (∀ (st : Estado) (e' : Elemento), e' ∈ (actualizarEstadoVisual st).documento →
      e'.esRamo = true → e'.requisitos = none → e'.bloqueado = false) ∧
    (∀ (st : Estado) (e : Elemento), Alcanzable st → e ∈ st.documento →
      e.esRamo = true → e.requisitos = none →
      e.bloqueado = false ∧
      manejarClickEnRamo st e =
        (actualizarEstadoVisual { st with ramosAprobados :=
          (if setHas st.ramosAprobados e.id then setDelete st.ramosAprobados e.id
           else setAdd st.ramosAprobados e.id) }, Salida.nada)) := by
  refine ⟨?_, ?_, ?_⟩
  · intro st i e hi hr hq
    obtain ⟨e', h1, h2, h3, h4, h5, -⟩ :=
      actualizarRamos_getElem st.ramosAprobados st.documento i e hi
    refine ⟨e', h1, h3, h4.trans hr, h5.trans hq, ?_⟩
    exact sin_requisitos_desbloqueado st e' h2 (h4.trans hr) (Or.inl (h5.trans hq))
  · intro st e' he' hr hq
    exact sin_requisitos_desbloqueado st e' he' hr (Or.inl hq)
  · intro st e ha he hr hq
    obtain ⟨st0, rfl⟩ := alcanzable_es_actualizado st ha
    have hb := sin_requisitos_desbloqueado st0 e he hr (Or.inl hq)
    refine ⟨hb, ?_⟩
    unfold manejarClickEnRamo
    rw [hb]
    rfl

/-- C11 at a concrete reachable state: on `invertidaTrasA` course A, which has no
prerequisite attribute, is unlocked and a click on it shows nothing. -/
theorem C11_witness :
    Alcanzable invertidaTrasA ∧
    ramo "A" none "Ramo A" ∈ invertidaTrasA.documento ∧
    (ramo "A" none "Ramo A").bloqueado = false ∧
    (manejarClickEnRamo invertidaTrasA (ramo "A" none "Ramo A")).2 = Salida.nada ∧
    (manejarClickEnRamo invertidaTrasA (ramo "A" none "Ramo A")).1.ramosAprobados =
      ["A".toList] :=
  ⟨Alcanzable.clic _ 2 (alcanzable_clics _ _ (alcanzable_estadoInicial _)), by decide,
    (C11_sin_atributo_siempre_desbloqueado.2.2 invertidaTrasA (ramo "A" none "Ramo A")
      (Alcanzable.clic _ 2 (alcanzable_clics _ _ (alcanzable_estadoInicial _)))
      (by decide) rfl rfl).1,
    by decide, by decide⟩

/-! ## The scenario of two courses -/

/-- C12. Courses A (no prerequisites, text `Anatomía`) and B (prerequisite
attribute `A`), with nothing stored, the empty string stored or the empty array
stored: after the initialization B is locked; a click on B shows the message
that names `Anatomía` and leaves the state as it is; a click on A puts A in the
completed set and leaves B unlocked and not completed; a click on B then
completes B, and the stored text is `["A","B"]`. The same holds with B listed
before A. -/
theorem C12_escenario_A_B :
    (inicializar mallaAB none = some (estadoInicial mallaAB) ∧
     inicializar mallaAB (some []) = some (estadoInicial mallaAB) ∧
     inicializar mallaAB (some "[]".toList) = some (estadoInicial mallaAB) ∧
     (estadoInicial mallaAB).ramosAprobados = [] ∧
     (estadoInicial mallaAB).documento =
       [ramo "A" none "Anatomía",
        { ramo "B" (some "A") "Bioquímica" with bloqueado := true }] ∧
     clic (estadoInicial mallaAB) 1 =
       (estadoInicial mallaAB,
        Salida.alerta "⛔ Ramo bloqueado. Debes aprobar:\n\n• Anatomía".toList) ∧
     (clics (estadoInicial mallaAB) [1, 0]).ramosAprobados = ["A".toList] ∧
     (clics (estadoInicial mallaAB) [1, 0]).documento =
       [{ ramo "A" none "Anatomía" with aprobado := true },
        ramo "B" (some "A") "Bioquímica"] ∧
     (clics (estadoInicial mallaAB) [1, 0, 1]).ramosAprobados = ["A".toList, "B".toList] ∧
     (clics (estadoInicial mallaAB) [1, 0, 1]).documento =
       [{ ramo "A" none "Anatomía" with aprobado := true },
        { ramo "B" (some "A") "Bioquímica" with aprobado := true }] ∧
     (clics (estadoInicial mallaAB) [1, 0, 1]).localStorage =
       some "[\"A\",\"B\"]".toList) ∧
    (inicializar mallaBA none = some (estadoInicial mallaBA) ∧
     (estadoInicial mallaBA).documento =
       [{ ramo "B" (some "A") "Bioquímica" with bloqueado := true },
        ramo "A" none "Anatomía"] ∧
     clic (estadoInicial mallaBA) 0 =
       (estadoInicial mallaBA,
        Salida.alerta "⛔ Ramo bloqueado. Debes aprobar:\n\n• Anatomía".toList) ∧
     (clics (estadoInicial mallaBA) [0, 1]).ramosAprobados = ["A".toList] ∧
     (clics (estadoInicial mallaBA) [0, 1]).documento =
       [ramo "B" (some "A") "Bioquímica",
        { ramo "A" none "Anatomía" with aprobado := true }] ∧
     (clics (estadoInicial mallaBA) [0, 1, 0]).ramosAprobados = ["A".toList, "B".toList] ∧
     (clics (estadoInicial mallaBA) [0, 1, 0]).documento =
       [{ ramo "B" (some "A") "Bioquímica" with aprobado := true },
        { ramo "A" none "Anatomía" with aprobado := true }] ∧
     (clics (estadoInicial mallaBA) [0, 1, 0]).localStorage =
       some "[\"A\",\"B\"]".toList) := by
  constructorm* _ ∧ _
  all_goals decide

/-! ## Persistence -/

/-- C13. In every reachable state (after the initialization and after every
click, on a locked node or not) the stored value is the JSON text of the
completed set in memory, and loading it gives that set back; every recompute
ends with the stored value being the text of the set it leaves. -/
theorem C13_almacen_refleja_conjunto (st : Estado) (h : Alcanzable st) :
    st.localStorage = some (jsonStringify st.ramosAprobados) ∧
    cargarRamosAprobados st.localStorage = some (nuevoSet st.ramosAprobados) ∧
    (∀ i, (clic st i).1.localStorage = some (jsonStringify (clic st i).1.ramosAprobados)) ∧
    (∀ st0 : Estado, (actualizarEstadoVisual st0).localStorage =
      some (jsonStringify (actualizarEstadoVisual st0).ramosAprobados)) := by
  have key : ∀ s, Alcanzable s → s.localStorage = some (jsonStringify s.ramosAprobados) := by
    intro s hs
    obtain ⟨s0, rfl⟩ := alcanzable_es_actualizado s hs
    rfl
  refine ⟨key st h, ?_, fun i => key _ (Alcanzable.clic st i h), fun _ => rfl⟩
  rw [key st h]
  exact cargar_guardar st.ramosAprobados

/-- C13 at concrete reachable states: after the initialization of `mallaAB` from
a stored text with white space, after a click on the locked course B, and after
the clicks that approve A and B. -/
theorem C13_witness :
    inicializar mallaAB (some " [ \"A\" ] ".toList) =
      some (actualizarEstadoVisual ⟨mallaAB, ["A".toList], none⟩) ∧
    (actualizarEstadoVisual ⟨mallaAB, ["A".toList], none⟩).localStorage =
      some "[\"A\"]".toList ∧
    (clic (estadoInicial mallaAB) 1).1.localStorage = some "[]".toList ∧
    (clics (estadoInicial mallaAB) [0, 1]).localStorage =
      some (jsonStringify ["A".toList, "B".toList]) :=
  ⟨by decide,
    (C13_almacen_refleja_conjunto _
      (Alcanzable.inicio mallaAB (some " [ \"A\" ] ".toList) _ (by decide))).1,
    (C13_almacen_refleja_conjunto _ (alcanzable_estadoInicial mallaAB)).2.2.1 1,
    (C13_almacen_refleja_conjunto _
      (alcanzable_clics _ [0, 1] (alcanzable_estadoInicial mallaAB))).1⟩

/-! ## The names in the alert -/

theorem getElementById_vacio (doc : List Elemento) : getElementById doc [] = none := by
  simp [getElementById]

theorem getElementById_ninguno (doc : List Elemento) (x : JSString)
    (h : ∀ e ∈ doc, e.id ≠ x) : getElementById doc x = none := by
  unfold getElementById
  split
  · rfl
  · rw [List.find?_eq_none]
    intro e he
    simpa using h e he

theorem getElementById_primero (pre post : List Elemento) (e : Elemento) (x : JSString)
    (hx : x ≠ []) (he : e.id = x) (hpre : ∀ f ∈ pre, f.id ≠ x) :
    getElementById (pre ++ e :: post) x = some e := by
  unfold getElementById
  rw [if_neg hx, List.find?_append]
  have h1 : pre.find? (fun e => decide (e.id = x)) = none := by
    rw [List.find?_eq_none]
    intro f hf
    simpa using hpre f hf
  rw [h1, List.find?_cons_of_pos _ (by simpa using he)]
  rfl

/-- C14. A click on a locked course node with prerequisite attribute `attr`
shows the alert built from the list `nombresRequisitosFaltantes`. That list has,
in the order of the attribute, one entry for each piece of `attr` whose trimmed
id is not in the completed set, and none for the other pieces. The entry of a
piece is the text of the first element of the document whose id is the trimmed
id, when there is one, and the piece itself, untrimmed, when no element has that
id or the trimmed id is empty. -/
theorem C14_nombres_del_aviso (st : Estado) (e : Elemento) (attr : JSString)
    (hb : e.bloqueado = true) (ha : e.requisitos = some attr) :
    (manejarClickEnRamo st e).2 = Salida.alerta (mensajeBloqueado
      (nombresRequisitosFaltantes st.documento st.ramosAprobados attr)) ∧
    List.Forall₂
      (fun reqId nombre =>
        (trim reqId = [] → nombre = reqId) ∧
        ((∀ f ∈ st.documento, f.id ≠ trim reqId) → nombre = reqId) ∧
        (trim reqId ≠ [] → ∀ pre el post, st.documento = pre ++ el :: post →
          el.id = trim reqId → (∀ f ∈ pre, f.id ≠ trim reqId) →
          nombre = el.textContent))
      ((split attr).filter (fun reqId => decide (trim reqId ∉ st.ramosAprobados)))
      (nombresRequisitosFaltantes st.documento st.ramosAprobados attr) := by
  constructor
  · unfold manejarClickEnRamo
    rw [if_pos hb, ha]
  · have hf : (fun reqId => decide (trim reqId ∉ st.ramosAprobados)) =
        (fun reqId => !setHas st.ramosAprobados (trim reqId)) := by
      funext reqId
      simp [setHas]
    unfold nombresRequisitosFaltantes
    rw [hf, List.forall₂_map_right_iff, List.forall₂_same]
    intro reqId _
    refine ⟨?_, ?_, ?_⟩
    · intro h
      rw [h, getElementById_vacio]
    · intro h
      rw [getElementById_ninguno _ _ h]
    · intro hne pre el post hdoc hid hpre
      rw [hdoc, getElementById_primero pre post el _ hne hid hpre]

/-- C14 on the page `mallaNombres`: the locked course M names A, `Q` and P. With
A approved the alert lists the untrimmed piece of `Q`, which is the id of no
element, and the text of the element with id P; A contributes no entry. -/
theorem C14_witness :
    split "A, Q ,P".toList = ["A".toList, " Q ".toList, "P".toList] ∧
    nombresRequisitosFaltantes mallaNombres [] "A, Q ,P".toList =
      ["Anatomía".toList, " Q ".toList, "Pie".toList] ∧
    nombresRequisitosFaltantes mallaNombres ["A".toList] "A, Q ,P".toList =
      [" Q ".toList, "Pie".toList] ∧
    (manejarClickEnRamo ⟨mallaNombres, ["A".toList], none⟩
      { ramo "M" (some "A, Q ,P") "Microbiología" with bloqueado := true }).2 =
      Salida.alerta (mensajeBloqueado
        (nombresRequisitosFaltantes mallaNombres ["A".toList] "A, Q ,P".toList)) :=
  ⟨by decide, by decide, by decide,
    (C14_nombres_del_aviso ⟨mallaNombres, ["A".toList], none⟩
      { ramo "M" (some "A, Q ,P") "Microbiología" with bloqueado := true }
      "A, Q ,P".toList rfl rfl).1⟩

/-! ## What recompute removes -/

theorem idBloqueado_iff (doc : List Elemento) (y : JSString) :
    idBloqueado doc y = true ↔
      ∃ e ∈ doc, e.esRamo = true ∧ e.bloqueado = true ∧ e.id = y := by
  simp [idBloqueado, and_assoc]

theorem actualizarRamo_snd_filter (S : List JSString) (e : Elemento) :
    (actualizarRamo S e).2 =
      S.filter (fun y => !((actualizarRamo S e).1.bloqueado && decide (e.id = y))) := by
  unfold actualizarRamo
  split
  · split
    · simp only [setDelete]
      apply List.filter_congr
      intro y _
      by_cases h : e.id = y
      · simp [h]
      · simp [h, Ne.symm h]
    · rename_i h
      symm
      rw [List.filter_eq_self]
      intro y hy
      have : e.id ≠ y := by
        rintro rfl
        exact h ((setHas_iff S e.id).2 hy)
      simp [this]
  · symm
    rw [List.filter_eq_self]
    intro y _
    simp

/-- The set after the loop, as a list: the members of the initial set, in
order, that are not the id of a course node that ends locked. -/
theorem actualizarRamos_snd_filter (S : List JSString) (doc : List Elemento) :
    (actualizarRamos S doc).2 =
      S.filter (fun y => !idBloqueado (actualizarRamos S doc).1 y) := by
  induction doc generalizing S with
  | nil =>
    show S = S.filter (fun y => !idBloqueado [] y)
    symm
    rw [List.filter_eq_self]
    intro y _
    simp [idBloqueado]
  | cons e resto ih =>
    cases h : e.esRamo with
    | true =>
      rw [actualizarRamos_cons_ramo S e resto h]
      simp only
      rw [ih, actualizarRamo_snd_filter S e, List.filter_filter]
      apply List.filter_congr
      intro y _
      simp only [idBloqueado, List.any_cons, (actualizarRamo_fijo S e).1,
        (actualizarRamo_fijo S e).2.1, h, Bool.true_and]
      cases (actualizarRamo S e).1.bloqueado <;> simp [Bool.and_comm]
    | false =>
      rw [actualizarRamos_cons_otro S e resto h]
      simp only
      rw [ih]
      apply List.filter_congr
      intro y _
      simp [idBloqueado, h]

/-- The ids of the course nodes, in order, are the same after the loop. -/
theorem ids_ramos_fijo (S : List JSString) (doc : List Elemento) :
    (ramos (actualizarRamos S doc).1).map (fun e => e.id) =
      (ramos doc).map (fun e => e.id) := by
  induction doc generalizing S with
  | nil => simp [actualizarRamos]
  | cons e resto ih =>
    cases h : e.esRamo with
    | true =>
      rw [actualizarRamos_cons_ramo S e resto h]
      simp only [ramos, List.filter_cons, (actualizarRamo_fijo S e).2.1, h, if_true,
        List.map_cons, (actualizarRamo_fijo S e).1]
      exact congrArg _ (ih _)
    | false =>
      rw [actualizarRamos_cons_otro S e resto h]
      simpa [ramos, List.filter_cons, h] using ih S

/-! ## Fixed points of recompute -/

theorem actualizarRamo_bloqueado_ids (S : List JSString) (e : Elemento) :
    (actualizarRamo S e).1.bloqueado = true ↔ ∃ p ∈ idsRequisitos e, p ∉ S := by
  rw [actualizarRamo_bloqueado]
  unfold idsRequisitos
  cases e.requisitos with
  | none => simp
  | some attr =>
    by_cases h : attr = []
    · simp [h]
    · simp [h]

theorem idsRequisitos_actualizarRamo (S : List JSString) (e : Elemento) :
    idsRequisitos (actualizarRamo S e).1 = idsRequisitos e := by
  unfold idsRequisitos
  rw [(actualizarRamo_fijo S e).2.2.1]

/-- A course node whose classes already agree with the set is left as it is,
and so is the set. -/
theorem actualizarRamo_punto_fijo (S : List JSString) (e : Elemento)
    (h1 : e.bloqueado = true ↔ ∃ p ∈ idsRequisitos e, p ∉ S)
    (h2 : e.bloqueado = true → e.aprobado = false ∧ e.id ∉ S)
    (h3 : e.bloqueado = false → (e.aprobado = true ↔ e.id ∈ S)) :
    actualizarRamo S e = (e, S) := by
  have hb := (actualizarRamo_bloqueado_ids S e).trans h1.symm
  unfold actualizarRamo at hb ⊢
  split
  · rename_i hlen
    rw [if_pos hlen] at hb
    have hbl : e.bloqueado = true := hb.1 rfl
    obtain ⟨ha, hid⟩ := h2 hbl
    have hhas : setHas S e.id = false := by
      rw [← Bool.not_eq_true, setHas_iff]; exact hid
    rw [hhas]
    cases e
    simp_all
  · rename_i hlen
    rw [if_neg hlen] at hb
    have hbl : e.bloqueado = false := by
      rw [← Bool.not_eq_true]
      intro h
      have := hb.2 h
      cases this
    have ha := h3 hbl
    have hhas : setHas S e.id = e.aprobado := by
      cases hap : e.aprobado with
      | true => exact (setHas_iff S e.id).2 (ha.1 hap)
      | false =>
        rw [← Bool.not_eq_true, setHas_iff]
        intro hin
        rw [ha.2 hin] at hap
        cases hap
    rw [hhas]
    cases e
    simp_all

/-- A loop over course nodes that all agree with the set changes nothing. -/
theorem actualizarRamos_punto_fijo (S : List JSString) (doc : List Elemento)
    (h : ∀ e ∈ doc, e.esRamo = true → actualizarRamo S e = (e, S)) :
    actualizarRamos S doc = (doc, S) := by
  induction doc with
  | nil => rfl
  | cons e resto ih =>
    have ih' := ih (fun f hf => h f (List.mem_cons_of_mem _ hf))
    cases hr : e.esRamo with
    | true =>
      rw [actualizarRamos_cons_ramo S e resto hr, h e (List.mem_cons_self _ _) hr]
      simp only
      rw [ih']
    | false =>
      rw [actualizarRamos_cons_otro S e resto hr, ih']

/-- With prerequisites listed first, a course node ends locked exactly when one
of its prerequisite ids is absent from the set the loop leaves. -/
theorem bloqueado_iff_falta_final (S : List JSString) (doc : List Elemento)
    (ho : requisitosAntes doc = true) :
    ∀ e' ∈ (actualizarRamos S doc).1, e'.esRamo = true →
      (e'.bloqueado = true ↔ ∃ p ∈ idsRequisitos e', p ∉ (actualizarRamos S doc).2) := by
  induction doc generalizing S with
  | nil => intro e' he'; simp [actualizarRamos] at he'
  | cons e resto ih =>
    intro e' he' hr
    have ho' : requisitosAntes resto = true := by
      simp only [requisitosAntes, Bool.and_eq_true] at ho
      exact ho.2
    cases h : e.esRamo with
    | true =>
      have hpost : ∀ f ∈ e :: resto, f.esRamo = true → f.id ∉ idsRequisitos e := by
        simp only [requisitosAntes, Bool.and_eq_true, h, Bool.not_true, Bool.false_or,
          List.all_eq_true] at ho
        intro f hf hfr
        have := ho.1 f hf
        simpa [hfr] using this
      rw [actualizarRamos_cons_ramo S e resto h] at he'
      rcases List.mem_cons.1 he' with heq | hmem
      · subst heq
        rw [actualizarRamo_bloqueado_ids, idsRequisitos_actualizarRamo]
        constructor
        · rintro ⟨p, hp, hpS⟩
          exact ⟨p, hp, fun hin => hpS (actualizarRamos_subset _ _ p hin)⟩
        · rintro ⟨p, hp, hpS⟩
          refine ⟨p, hp, fun hin => hpS ?_⟩
          refine (mem_actualizarRamos S (e :: resto) p).2 ⟨hin, ?_⟩
          rintro ⟨e2, h1, h2, -, h4⟩
          have := id_mem_ramos _ _ e2 h1 h2
          rw [h4] at this
          obtain ⟨f, hf, rfl⟩ := List.mem_map.1 this
          have hf' := List.mem_filter.1 hf
          exact hpost f hf'.1 hf'.2 hp
      · rw [actualizarRamos_cons_ramo S e resto h]
        exact ih _ ho' e' hmem hr
    | false =>
      rw [actualizarRamos_cons_otro S e resto h] at he' ⊢
      rcases List.mem_cons.1 he' with heq | hmem
      · rw [heq, h] at hr; cases hr
      · exact ih _ ho' e' hmem hr

/-- C15. When the ids of the course nodes are unique and the document lists
prerequisites first, one recompute from any completed set reaches a consistent
fixed point: a course node is locked exactly when one of its prerequisite ids is
absent from the final set; every course node whose id is in the final set has
all its prerequisite ids in the final set; and a second recompute changes
nothing. -/
theorem C15_orden_da_punto_fijo (st : Estado)
    (hu : ((ramos st.documento).map (fun e => e.id)).Nodup)
    (ho : requisitosAntes st.documento = true) :
    (∀ e' ∈ (actualizarEstadoVisual st).documento, e'.esRamo = true →
      (e'.bloqueado = true ↔
        ∃ p ∈ idsRequisitos e', p ∉ (actualizarEstadoVisual st).ramosAprobados)) ∧
    (∀ e' ∈ (actualizarEstadoVisual st).documento, e'.esRamo = true →
      e'.id ∈ (actualizarEstadoVisual st).ramosAprobados →
      ∀ p ∈ idsRequisitos e', p ∈ (actualizarEstadoVisual st).ramosAprobados) ∧
    actualizarEstadoVisual (actualizarEstadoVisual st) = actualizarEstadoVisual st := by
  have h1 := bloqueado_iff_falta_final st.ramosAprobados st.documento ho
  have hcl := clases_tras_actualizarRamos st.ramosAprobados st.documento hu
  refine ⟨h1, ?_, ?_⟩
  · intro e' he' hr hid p hp
    by_contra hno
    have hb := (h1 e' he' hr).2 ⟨p, hp, hno⟩
    exact bloqueado_fuera st e' he' hr hb hid
  · have hfix : actualizarRamos (actualizarRamos st.ramosAprobados st.documento).2
        (actualizarRamos st.ramosAprobados st.documento).1 =
        ((actualizarRamos st.ramosAprobados st.documento).1,
          (actualizarRamos st.ramosAprobados st.documento).2) := by
      apply actualizarRamos_punto_fijo
      intro e' he' hr
      apply actualizarRamo_punto_fijo
      · exact h1 e' he' hr
      · intro hb
        refine ⟨?_, bloqueado_fuera st e' he' hr hb⟩
        rw [← Bool.not_eq_true]
        intro ha
        exact (hcl e' he' hr).1 ⟨hb, ha⟩
      · intro hb
        exact (hcl e' he' hr).2 hb
    show actualizarEstadoVisual
      { documento := (actualizarRamos st.ramosAprobados st.documento).1,
        ramosAprobados := (actualizarRamos st.ramosAprobados st.documento).2,
        localStorage := guardarRamosAprobados
          (actualizarRamos st.ramosAprobados st.documento).2 } = _
    unfold actualizarEstadoVisual
    simp only
    rw [hfix]

/-- C15 on the page `mallaOrdenada` with the set C, B: one recompute locks C
and B and empties the set, and a second one changes nothing. -/
theorem C15_witness :
    ((ramos mallaOrdenada).map (fun e => e.id)).Nodup ∧
    requisitosAntes mallaOrdenada = true ∧
    (actualizarEstadoVisual ⟨mallaOrdenada, ["C".toList, "B".toList], none⟩).ramosAprobados =
      [] ∧
    (actualizarEstadoVisual ⟨mallaOrdenada, ["C".toList, "B".toList], none⟩).documento.map
      (fun e => (e.id, e.bloqueado)) =
      [("A".toList, false), ("C".toList, true), ("B".toList, true)] ∧
    actualizarEstadoVisual
      (actualizarEstadoVisual ⟨mallaOrdenada, ["C".toList, "B".toList], none⟩) =
      actualizarEstadoVisual ⟨mallaOrdenada, ["C".toList, "B".toList], none⟩ :=
  ⟨by decide, by decide, by decide, by decide,
    (C15_orden_da_punto_fijo ⟨mallaOrdenada, ["C".toList, "B".toList], none⟩
      (by decide) (by decide)).2.2⟩

/-! ## What recompute removes, as a whole -/

/-- C16, as amended. The completed set after recompute is the set before it
without the ids of the course nodes that carry the locked class when recompute
returns, the other ids staying in order. In particular an id that belongs to no
course node is kept, and when the ids of the course nodes are unique the id of
an unlocked course node is kept. -/
theorem C16_quita_solo_ids_bloqueados (st : Estado) :
    (actualizarEstadoVisual st).ramosAprobados =
      st.ramosAprobados.filter
        (fun y => !idBloqueado (actualizarEstadoVisual st).documento y) ∧
    (∀ y, y ∈ (actualizarEstadoVisual st).ramosAprobados ↔
      y ∈ st.ramosAprobados ∧ ¬ ∃ e' ∈ (actualizarEstadoVisual st).documento,
        e'.esRamo = true ∧ e'.bloqueado = true ∧ e'.id = y) ∧
    (∀ y ∈ st.ramosAprobados, (∀ e ∈ st.documento, e.esRamo = true → e.id ≠ y) →
      y ∈ (actualizarEstadoVisual st).ramosAprobados) ∧
    (((ramos st.documento).map (fun e => e.id)).Nodup →
      ∀ e' ∈ (actualizarEstadoVisual st).documento, e'.esRamo = true →
        e'.bloqueado = false → e'.id ∈ st.ramosAprobados →
        e'.id ∈ (actualizarEstadoVisual st).ramosAprobados) := by
  refine ⟨actualizarRamos_snd_filter _ _, mem_actualizarRamos _ _, ?_, ?_⟩
  · intro y hy hno
    refine (mem_actualizarRamos st.ramosAprobados st.documento y).2 ⟨hy, ?_⟩
    rintro ⟨e', h1, h2, -, h3⟩
    have := id_mem_ramos _ _ e' h1 h2
    rw [h3] at this
    obtain ⟨e, he, rfl⟩ := List.mem_map.1 this
    have he' := List.mem_filter.1 he
    exact hno e he'.1 he'.2 rfl
  · intro hu e' he' hr hb hS
    refine (mem_actualizarRamos st.ramosAprobados st.documento e'.id).2 ⟨hS, ?_⟩
    rintro ⟨e2, h1, h2, h3, h4⟩
    have hu' : ((ramos (actualizarRamos st.ramosAprobados st.documento).1).map
        (fun e => e.id)).Nodup := by
      rw [ids_ramos_fijo]; exact hu
    have heq : e2 = e' := List.inj_on_of_nodup_map hu'
      (List.mem_filter.2 ⟨h1, h2⟩) (List.mem_filter.2 ⟨he', hr⟩) h4
    rw [heq, hb] at h3
    cases h3

/-- C16 as amended, on the page `mallaInvertida` with the set C, B, Z: recompute
locks C and removes its id; it keeps B, the id of an unlocked course node, and
Z, the id of no course node. -/
theorem C16_witness :
    (actualizarEstadoVisual
      ⟨mallaInvertida, ["C".toList, "B".toList, "Z".toList], none⟩).ramosAprobados =
      ["B".toList, "Z".toList] ∧
    "Z".toList ∈ (actualizarEstadoVisual
      ⟨mallaInvertida, ["C".toList, "B".toList, "Z".toList], none⟩).ramosAprobados ∧
    "B".toList ∈ (actualizarEstadoVisual
      ⟨mallaInvertida, ["C".toList, "B".toList, "Z".toList], none⟩).ramosAprobados :=
  ⟨by decide,
    (C16_quita_solo_ids_bloqueados
      ⟨mallaInvertida, ["C".toList, "B".toList, "Z".toList], none⟩).2.2.1
      "Z".toList (by decide) (by decide),
    (C16_quita_solo_ids_bloqueados
      ⟨mallaInvertida, ["C".toList, "B".toList, "Z".toList], none⟩).2.2.2 (by decide)
      { ramo "B" (some "C") "Ramo B" with aprobado := true } (by decide) rfl rfl
      (by decide)⟩

/-- C16 as stated fails. On the page `mallaDuplicada` with X completed, the
first node, whose id is X, ends unlocked, yet X is removed from the set: the
second node has the same id and ends locked. -/
theorem C16_counterexample :
    (actualizarEstadoVisual ⟨mallaDuplicada, ["X".toList], none⟩).documento =
      [{ ramo "X" none "Ramo X" with bloqueado := false, aprobado := true },
       { ramo "X" (some "Z") "Otro X" with bloqueado := true }] ∧
    "X".toList ∈ (⟨mallaDuplicada, ["X".toList], none⟩ : Estado).ramosAprobados ∧
    "X".toList ∉ (actualizarEstadoVisual ⟨mallaDuplicada, ["X".toList], none⟩).ramosAprobados :=
  ⟨by decide, by decide, by decide⟩

/-! ## Repeated recompute -/

/-- A pass that leaves the set as it was is repeated by the next pass: the loop
on the resulting document changes neither a class nor the set. -/
theorem actualizarRamos_estable (S : List JSString) (doc : List Elemento)
    (h : (actualizarRamos S doc).2 = S) :
    actualizarRamos S (actualizarRamos S doc).1 = ((actualizarRamos S doc).1, S) := by
  apply actualizarRamos_punto_fijo
  intro e' he' hr
  obtain ⟨e, -, S', -, rfl, h3, h4⟩ := actualizarRamos_traza S doc e' he' hr
  rw [h] at h4
  have hS : ∀ y, y ∈ S' ↔ y ∈ S :=
    fun y => ⟨h3 y, fun hy => ((actualizarRamo_mem S' e y).1 (h4 y hy)).1⟩
  apply actualizarRamo_punto_fijo
  · rw [actualizarRamo_bloqueado_ids, idsRequisitos_actualizarRamo]
    constructor
    · rintro ⟨p, hp, hpS⟩
      exact ⟨p, hp, fun hin => hpS ((hS p).2 hin)⟩
    · rintro ⟨p, hp, hpS⟩
      exact ⟨p, hp, fun hin => hpS ((hS p).1 hin)⟩
  · intro hb
    constructor
    · rw [← Bool.not_eq_true]
      intro ha
      rw [((actualizarRamo_aprobado S' e).1 ha).1] at hb
      cases hb
    · intro hin
      exact ((actualizarRamo_mem S' e _).1 (h4 _ hin)).2 ⟨hb, rfl⟩
  · intro hb
    rw [actualizarRamo_aprobado, (actualizarRamo_fijo S' e).1, hS]
    exact ⟨fun hx => hx.2, fun hx => ⟨hb, hx⟩⟩

theorem actualizarEstadoVisual_estable (st : Estado)
    (h : (actualizarEstadoVisual st).ramosAprobados = st.ramosAprobados) :
    actualizarEstadoVisual (actualizarEstadoVisual st) = actualizarEstadoVisual st := by
  have h' : (actualizarRamos st.ramosAprobados st.documento).2 = st.ramosAprobados := h
  have hfix := actualizarRamos_estable st.ramosAprobados st.documento h'
  show actualizarEstadoVisual
    { documento := (actualizarRamos st.ramosAprobados st.documento).1,
      ramosAprobados := (actualizarRamos st.ramosAprobados st.documento).2,
      localStorage := guardarRamosAprobados
        (actualizarRamos st.ramosAprobados st.documento).2 } = _
  unfold actualizarEstadoVisual
  simp only
  rw [h', hfix]

theorem countP_lt_of_imp {α : Type} (p q : α → Bool) (l : List α)
    (h1 : ∀ x ∈ l, p x = true → q x = true) (h2 : ∃ y ∈ l, q y = true ∧ p y = false) :
    l.countP p < l.countP q := by
  induction l with
  | nil => obtain ⟨y, hy, -⟩ := h2; cases hy
  | cons a t ih =>
    rw [List.countP_cons, List.countP_cons]
    have hmono : t.countP p ≤ t.countP q :=
      List.countP_mono_left (fun x hx => h1 x (List.mem_cons_of_mem _ hx))
    obtain ⟨y, hy, hq, hp⟩ := h2
    rcases List.mem_cons.1 hy with rfl | hyt
    · rw [hq, hp]
      simp only [if_true, Bool.false_eq_true, if_false]
      omega
    · have := ih (fun x hx => h1 x (List.mem_cons_of_mem _ hx)) ⟨y, hyt, hq, hp⟩
      have ha := h1 a (List.mem_cons_self _ _)
      by_cases hpa : p a = true
      · simp only [hpa, ha hpa, if_true]
        omega
      · rw [Bool.not_eq_true] at hpa
        simp only [hpa, Bool.false_eq_true, if_false]
        have hq0 : 0 ≤ (if q a = true then 1 else 0) := Nat.zero_le _
        omega

/-- A pass that changes the set removes the id of a course node that was in
it: fewer course nodes have their id in the set. -/
theorem cuenta_baja (st : Estado)
    (h : (actualizarEstadoVisual st).ramosAprobados ≠ st.ramosAprobados) :
    ((ramos st.documento).map (fun e => e.id)).countP
        (fun y => decide (y ∈ (actualizarEstadoVisual st).ramosAprobados)) <
      ((ramos st.documento).map (fun e => e.id)).countP
        (fun y => decide (y ∈ st.ramosAprobados)) := by
  apply countP_lt_of_imp
  · intro y _ hy
    simp only [decide_eq_true_eq] at hy ⊢
    exact actualizarRamos_subset _ _ y hy
  · have hne : ¬ ∀ y ∈ st.ramosAprobados,
        (!idBloqueado (actualizarEstadoVisual st).documento y) = true := by
      intro hall
      apply h
      have : (actualizarEstadoVisual st).ramosAprobados = st.ramosAprobados.filter
          (fun y => !idBloqueado (actualizarEstadoVisual st).documento y) :=
        actualizarRamos_snd_filter st.ramosAprobados st.documento
      rw [List.filter_eq_self.2 hall] at this
      exact this
    push_neg at hne
    obtain ⟨y, hy, hb⟩ := hne
    have hb' : idBloqueado (actualizarEstadoVisual st).documento y = true := by
      simpa using hb
    obtain ⟨e', h1, h2, h3, h4⟩ := (idBloqueado_iff _ _).1 hb'
    refine ⟨y, ?_, by simpa using hy, ?_⟩
    · have := id_mem_ramos _ _ e' h1 h2
      rwa [h4] at this
    · simp only [decide_eq_false_iff_not]
      intro hin
      exact ((mem_actualizarRamos st.ramosAprobados st.documento y).1 hin).2
        ⟨e', h1, h2, h3, h4⟩

theorem ids_ramos_pasadas (k : Nat) (st : Estado) :
    (ramos (pasadas k st).documento).map (fun e => e.id) =
      (ramos st.documento).map (fun e => e.id) := by
  induction k with
  | zero => rfl
  | succ k ih =>
    show (ramos (actualizarEstadoVisual (pasadas k st)).documento).map _ = _
    rw [← ih]
    exact ids_ramos_fijo _ _

/-- After `k + 1` passes either the state is a fixed point of recompute or at
least `k + 1` course nodes have had their id removed from the set. -/
theorem pasadas_fijo_o_baja (k : Nat) (st : Estado) :
    actualizarEstadoVisual (pasadas (k + 1) st) = pasadas (k + 1) st ∨
    ((ramos st.documento).map (fun e => e.id)).countP
        (fun y => decide (y ∈ (pasadas (k + 1) st).ramosAprobados)) + (k + 1) ≤
      ((ramos st.documento).map (fun e => e.id)).countP
        (fun y => decide (y ∈ st.ramosAprobados)) := by
  have paso : ∀ s : Estado,
      actualizarEstadoVisual (actualizarEstadoVisual s) = actualizarEstadoVisual s ∨
      ((ramos s.documento).map (fun e => e.id)).countP
          (fun y => decide (y ∈ (actualizarEstadoVisual s).ramosAprobados)) + 1 ≤
        ((ramos s.documento).map (fun e => e.id)).countP
          (fun y => decide (y ∈ s.ramosAprobados)) := by
    intro s
    by_cases hs : (actualizarEstadoVisual s).ramosAprobados = s.ramosAprobados
    · exact Or.inl (actualizarEstadoVisual_estable s hs)
    · exact Or.inr (cuenta_baja s hs)
  induction k with
  | zero => exact paso st
  | succ k ih =>
    rcases ih with hfix | hcount
    · left
      show actualizarEstadoVisual (actualizarEstadoVisual (pasadas (k + 1) st)) =
        actualizarEstadoVisual (pasadas (k + 1) st)
      rw [hfix, hfix]
    · rcases paso (pasadas (k + 1) st) with hfix | hbaja
      · exact Or.inl hfix
      · right
        rw [ids_ramos_pasadas] at hbaja
        show _ + (k + 1 + 1) ≤ _
        have hdef : pasadas (k + 1 + 1) st = actualizarEstadoVisual (pasadas (k + 1) st) := rfl
        rw [hdef]
        omega

theorem pasadas_add_fijo (n j : Nat) (st : Estado)
    (h : actualizarEstadoVisual (pasadas n st) = pasadas n st) :
    pasadas (n + j) st = pasadas n st := by
  induction j with
  | zero => rfl
  | succ j ih =>
    show actualizarEstadoVisual (pasadas (n + j) st) = _
    rw [ih, h]

/-- C17. If a pass of recompute leaves the completed set unchanged, the next
pass changes nothing (set, classes, stored value); a pass that changes the set
leaves a strictly shorter list all of whose ids were in the set; and with `n`
course nodes in the document the state after `n + 1` consecutive passes is a
fixed point of recompute, which every further pass leaves as it is. -/
theorem C17_pasadas_convergen (st : Estado) :
    ((actualizarEstadoVisual st).ramosAprobados = st.ramosAprobados →
      actualizarEstadoVisual (actualizarEstadoVisual st) = actualizarEstadoVisual st) ∧
    ((actualizarEstadoVisual st).ramosAprobados ≠ st.ramosAprobados →
      (∀ y ∈ (actualizarEstadoVisual st).ramosAprobados, y ∈ st.ramosAprobados) ∧
      (actualizarEstadoVisual st).ramosAprobados.length < st.ramosAprobados.length) ∧
    actualizarEstadoVisual (pasadas ((ramos st.documento).length + 1) st) =
      pasadas ((ramos st.documento).length + 1) st ∧
    (∀ j, pasadas ((ramos st.documento).length + 1 + j) st =
      pasadas ((ramos st.documento).length + 1) st) := by
  have hfix : actualizarEstadoVisual (pasadas ((ramos st.documento).length + 1) st) =
      pasadas ((ramos st.documento).length + 1) st := by
    rcases pasadas_fijo_o_baja (ramos st.documento).length st with h | h
    · exact h
    · have hle := List.countP_le_length (fun y => decide (y ∈ st.ramosAprobados))
        (l := (ramos st.documento).map (fun e => e.id))
      rw [List.length_map] at hle
      omega
  refine ⟨actualizarEstadoVisual_estable st, ?_, hfix, fun j => pasadas_add_fijo _ j st hfix⟩
  intro hne
  refine ⟨fun y hy => actualizarRamos_subset _ _ y hy, ?_⟩
  have hsub : List.Sublist (actualizarEstadoVisual st).ramosAprobados st.ramosAprobados := by
    have := actualizarRamos_snd_filter st.ramosAprobados st.documento
    show List.Sublist (actualizarRamos st.ramosAprobados st.documento).2 _
    rw [this]
    exact List.filter_sublist _
  rcases Nat.lt_or_ge (actualizarEstadoVisual st).ramosAprobados.length
    st.ramosAprobados.length with hlt | hge
  · exact hlt
  · exact absurd (hsub.eq_of_length (Nat.le_antisymm hsub.length_le hge)) hne

/-- C17 on the state `invertidaSinA`, with three course nodes: the first two
passes shrink the set, the third changes nothing, and the state after four
passes is a fixed point. -/
theorem C17_witness :
    (ramos invertidaSinA.documento).length = 3 ∧
    invertidaSinA.ramosAprobados = ["C".toList, "B".toList] ∧
    (pasadas 1 invertidaSinA).ramosAprobados = ["B".toList] ∧
    (pasadas 2 invertidaSinA).ramosAprobados = [] ∧
    pasadas 3 invertidaSinA = pasadas 2 invertidaSinA ∧
    actualizarEstadoVisual (pasadas ((ramos invertidaSinA.documento).length + 1)
      invertidaSinA) = pasadas ((ramos invertidaSinA.documento).length + 1) invertidaSinA :=
  ⟨by decide, by decide, by decide, by decide, by decide,
    (C17_pasadas_convergen invertidaSinA).2.2.1⟩

/-! ## The locked branch of the click handler -/

theorem nombres_ne_nil (doc : List Elemento) (S : List JSString) (attr reqId : JSString)
    (h1 : reqId ∈ split attr) (h2 : trim reqId ∉ S) :
    nombresRequisitosFaltantes doc S attr ≠ [] := by
  unfold nombresRequisitosFaltantes
  intro h
  have hm : reqId ∈ (split attr).filter (fun reqId => !setHas S (trim reqId)) := by
    rw [List.mem_filter]
    exact ⟨h1, by simpa [setHas] using h2⟩
  rw [List.map_eq_nil_iff] at h
  rw [h] at hm
  cases hm

/-- C18. In every reachable state a course node that carries the locked class
has a non-empty prerequisite attribute, one of whose trimmed pieces is not in
the completed set; so a click on it does not raise on line 83: it shows the
alert, whose list of names is not empty, and leaves the state as it is. -/
theorem C18_rama_bloqueada_segura (st : Estado) (h : Alcanzable st) (e : Elemento)
    (he : e ∈ st.documento) (hr : e.esRamo = true) (hb : e.bloqueado = true) :
    ∃ attr, e.requisitos = some attr ∧ attr ≠ [] ∧
      (∃ reqId ∈ split attr, trim reqId ∉ st.ramosAprobados) ∧
      nombresRequisitosFaltantes st.documento st.ramosAprobados attr ≠ [] ∧
      manejarClickEnRamo st e = (st, Salida.alerta (mensajeBloqueado
        (nombresRequisitosFaltantes st.documento st.ramosAprobados attr))) := by
  obtain ⟨st0, rfl⟩ := alcanzable_es_actualizado st h
  obtain ⟨attr, h1, h2, reqId, h3, h4⟩ := bloqueado_falta_requisito st0 e he hr hb
  refine ⟨attr, h1, h2, ⟨reqId, h3, h4⟩, nombres_ne_nil _ _ attr reqId h3 h4, ?_⟩
  unfold manejarClickEnRamo
  rw [if_pos hb, h1]

/-- C18 at a concrete reachable state: on `invertidaTrasA` course C is locked;
its attribute is `A`, A is not in the completed set, and the click shows the
alert that names the text of A. -/
theorem C18_witness :
    Alcanzable invertidaTrasA ∧
    { ramo "C" (some "A") "Ramo C" with bloqueado := true } ∈ invertidaTrasA.documento ∧
    "A".toList ∉ invertidaTrasA.ramosAprobados ∧
    (clic invertidaTrasA 1).2 =
      Salida.alerta "⛔ Ramo bloqueado. Debes aprobar:\n\n• Ramo A".toList ∧
    ∃ attr, (some "A".toList : Option JSString) = some attr ∧ attr ≠ [] ∧
      (∃ reqId ∈ split attr, trim reqId ∉ invertidaTrasA.ramosAprobados) ∧
      nombresRequisitosFaltantes invertidaTrasA.documento invertidaTrasA.ramosAprobados
        attr ≠ [] ∧
      manejarClickEnRamo invertidaTrasA { ramo "C" (some "A") "Ramo C" with bloqueado := true } =
        (invertidaTrasA, Salida.alerta (mensajeBloqueado
          (nombresRequisitosFaltantes invertidaTrasA.documento
            invertidaTrasA.ramosAprobados attr))) :=
  ⟨Alcanzable.clic _ 2 (alcanzable_clics _ _ (alcanzable_estadoInicial _)), by decide,
    by decide, by decide,
    C18_rama_bloqueada_segura invertidaTrasA
      (Alcanzable.clic _ 2 (alcanzable_clics _ _ (alcanzable_estadoInicial _)))
      { ramo "C" (some "A") "Ramo C" with bloqueado := true } (by decide) rfl rfl⟩

end Malla
